import Mathlib

/-!
Shallow embedding of the product-lister ingestion pipeline
(src/product_lister.py): the three adapters (WooCommerce-style,
Shopify sitemap/API, generic CSS), the pagination discoverer, the
next-page URL construction, and the shared price/URL normalization
helpers.  Network fetches and markup parsing are modelled by oracle
functions supplied as inputs: a fetch either fails (an exception in
the Python source, modelled as an error) or yields the already-parsed
view of the document that the source's selectors extract.  A record
field holds exactly what the corresponding Python tuple slot holds.
-/

namespace ProductLister

abbrev Chars := List Char

/-! ## Character-list utilities (models of Python string operations) -/
/-- Model of splitting a string at the first occurrence of a character:
the part before it, and the part after it (or none when absent).
Underlies the query-string key/value split and the URL component split. -/
def cutAt (c : Char) (l : Chars) : Chars × Option Chars :=
  (l.takeWhile (fun x => x ≠ c),
   match l.dropWhile (fun x => x ≠ c) with
   | [] => none
   | _ :: t => some t)

/-- Model of str.split(sep) for a one-character separator. -/
def splitOnCh (sep : Char) : Chars → List Chars
  | [] => [[]]
  | c :: cs =>
    if c = sep then [] :: splitOnCh sep cs
    else
      match splitOnCh sep cs with
      | [] => [[c]]
      | h :: t => (c :: h) :: t

/-- Does the second list start with the first one (str.startswith)? -/
def hasPre : Chars → Chars → Bool
  | [], _ => true
  | _ :: _, [] => false
  | c :: cs, d :: ds => c = d && hasPre cs ds

/-- Substring containment test (the Python `in` operator on str). -/
def hasSub (pat : Chars) : Chars → Bool
  | [] => hasPre pat []
  | c :: cs => hasPre pat (c :: cs) || hasSub pat cs

/-- Strip ASCII whitespace from both ends (str.strip /
get_text(strip=True) on a single text node). -/
def pyStrip (s : String) : String :=
  String.mk (((s.toList.dropWhile Char.isWhitespace).reverse.dropWhile
      Char.isWhitespace).reverse)

/-- Numeric value of a decimal digit string (Python int() on a string of
digits, as used on pager labels). -/
def digitsVal (l : Chars) : Nat :=
  l.foldl (fun n c => n * 10 + (c.toNat - 48)) 0

/-- Decimal digits of a natural number, most significant first
(Python str() of an int); the first argument is fuel, always sufficient
at `n + 1`. -/
def natCharsAux : Nat → Nat → Chars
  | 0, _ => []
  | fuel + 1, n =>
    if n < 10 then [Char.ofNat (48 + n)]
    else natCharsAux fuel (n / 10) ++ [Char.ofNat (48 + n % 10)]

/-- Model of Python str(num) for a natural number. -/
def natChars (n : Nat) : Chars := natCharsAux (n + 1) n

/-! ## Price text normalization

The source extracts the first run matching the pattern of digits,
commas and dots, removes the commas, and feeds the result to float():
float(re.search(r"[0-9,.]+", text).group().replace(",", "")).
A missing match or an unparseable run raises, which every caller turns
into a card skip. -/
/-- A character the price regular expression matches (digit, comma, dot;
digits restricted to ASCII in this model). -/
def isRunChar (c : Char) : Bool := c.isDigit || c = ',' || c = '.'

/-- First maximal run of price characters (model of re.search's match). -/
def firstRunAux : Chars → Option Chars
  | [] => none
  | c :: cs =>
    if isRunChar c then some (c :: cs.takeWhile isRunChar)
    else firstRunAux cs

/-- Model of Python float() restricted to the strings the price pipeline
can produce: digits with at most one dot and at least one digit parse to
an exact rational; everything else raises (none).  Mirrors that
float("5.") = 5.0, float(".5") = 0.5, float(".") and float("1.2.3")
raise. -/
def pyFloat? (s : String) : Option ℚ :=
  if s.toList.all (fun c => c.isDigit || c = '.') then
    match splitOnCh '.' s.toList with
    | [i] => if i = [] then none else some ((digitsVal i : ℚ))
    | [i, f] =>
      if i = [] ∧ f = [] then none
      else some ((digitsVal i : ℚ) + (digitsVal f : ℚ) / (10 : ℚ) ^ f.length)
    | _ => none
  else none

/-- The full price normalization used by the Woo-style and generic
adapters (regex search, comma removal, float conversion); none means the
extraction raised and the governing card is skipped. -/
def parse_price (s : String) : Option ℚ :=
  match firstRunAux s.toList with
  | none => none
  | some run => pyFloat? (String.mk (run.filter (fun c => c ≠ ',')))

/-! ## URL model (urllib.parse fragment used by the source)

Percent-encoding is not modelled; scheme recognition is restricted to
the literal http / https prefixes the scraped stores use. -/
structure URLParts where
  scheme : String
  host : String
  path : String
  query : String
  fragment : String

def httpPre : Chars := ['h', 't', 't', 'p', ':', '/', '/']

def httpsPre : Chars := ['h', 't', 't', 'p', 's', ':', '/', '/']

/-- Scheme, netloc and path of the part of a URL before any query or
fragment, assembled with a given query and fragment. -/
def parsePre (pre query frag : Chars) : URLParts :=
  if hasPre httpPre pre then
    ⟨"http", String.mk ((pre.drop 7).takeWhile (fun c => c ≠ '/')),
     String.mk ((pre.drop 7).dropWhile (fun c => c ≠ '/')),
     String.mk query, String.mk frag⟩
  else if hasPre httpsPre pre then
    ⟨"https", String.mk ((pre.drop 8).takeWhile (fun c => c ≠ '/')),
     String.mk ((pre.drop 8).dropWhile (fun c => c ≠ '/')),
     String.mk query, String.mk frag⟩
  else
    ⟨"", "", String.mk pre, String.mk query, String.mk frag⟩

/-- Model of urllib.parse.urlparse on the URLs this program handles:
fragment after the first hash, query after the first question mark
before it, then scheme, netloc and path. -/
def urlparseChars (l : Chars) : URLParts :=
  parsePre (cutAt '?' (cutAt '#' l).1).1
    ((cutAt '?' (cutAt '#' l).1).2.getD [])
    ((cutAt '#' l).2.getD [])

def urlparseM (s : String) : URLParts := urlparseChars s.toList

/-- Model of urllib.parse.urlunparse (no params component; the question
mark and hash separators appear only when their component is
non-empty). -/
def urlunparseChars (u : URLParts) : Chars :=
  if u.scheme = "" then
    u.path.toList ++ (if u.query = "" then [] else '?' :: u.query.toList)
      ++ (if u.fragment = "" then [] else '#' :: u.fragment.toList)
  else
    u.scheme.toList ++ ':' :: '/' :: '/' :: u.host.toList ++ u.path.toList
      ++ (if u.query = "" then [] else '?' :: u.query.toList)
      ++ (if u.fragment = "" then [] else '#' :: u.fragment.toList)

def urlunparseM (u : URLParts) : String := String.mk (urlunparseChars u)

/-- scheme://host of a URL (the resolution base for root-relative
links). -/
def urlorigin (base : String) : String :=
  let u := urlparseM base
  (if u.scheme = "" then "" else u.scheme ++ "://") ++ u.host

/-- Directory part of a path: everything up to and including the last
slash, or the root slash when there is none. -/
def dirOf (p : String) : String :=
  let r := (p.toList.reverse.dropWhile (fun c => c ≠ '/')).reverse
  if r = [] then "/" else String.mk r

/-- Model of urllib.parse.urljoin for the shapes of links the adapters
meet: empty link keeps the base, absolute links replace it,
protocol-relative links keep the scheme, root-relative links resolve
against the origin, and other links resolve against the base's
directory. -/
def urljoin (base rel : String) : String :=
  if rel = "" then base
  else if hasPre httpPre rel.toList || hasPre httpsPre rel.toList then rel
  else if hasPre ['/', '/'] rel.toList then
    (urlparseM base).scheme ++ ":" ++ rel
  else if hasPre ['/'] rel.toList then urlorigin base ++ rel
  else urlorigin base ++ dirOf (urlparseM base).path ++ rel

/-- Model of pathlib.Path(...).name: the last non-empty slash-separated
segment (used to turn a sitemap loc into a product handle). -/
def pathName (s : String) : String :=
  match ((splitOnCh '/' s.toList).filter (fun x => x ≠ [])).getLast? with
  | some x => String.mk x
  | none => ""

/-! ## Query-string model (parse_qs / urlencode with doseq)

parse_qsl with default options: pieces are split on ampersands, a piece
without an equals sign or with an empty value is dropped
(keep_blank_values is false), and the value is everything after the
first equals sign.  parse_qs groups the surviving pairs into a dict in
first-occurrence order, appending repeated keys' values. -/
/-- One query piece as a (key, value) pair, or none when parse_qsl
drops it. -/
def qsPair (p : Chars) : Option (Chars × Chars) :=
  match cutAt '=' p with
  | (_, none) => none
  | (k, some v) => if v = [] then none else some (k, v)

/-- Model of urllib.parse.parse_qsl with default options. -/
def parse_qsl (q : Chars) : List (Chars × Chars) :=
  (splitOnCh '&' q).filterMap qsPair

/-- Append one value under a key, keeping first-occurrence key order
(the dict-building step of parse_qs). -/
def addVal (d : List (Chars × List Chars)) (k v : Chars) :
    List (Chars × List Chars) :=
  match d with
  | [] => [(k, [v])]
  | (k', vs) :: rest =>
    if k' = k then (k', vs ++ [v]) :: rest else (k', vs) :: addVal rest k v

/-- Model of urllib.parse.parse_qs with default options. -/
def parse_qs (q : Chars) : List (Chars × List Chars) :=
  (parse_qsl q).foldl (fun d kv => addVal d kv.1 kv.2) []

/-- Python dict assignment d[k] = v: replace in place, or append a new
key at the end. -/
def dictSet (d : List (Chars × List Chars)) (k : Chars) (v : List Chars) :
    List (Chars × List Chars) :=
  match d with
  | [] => [(k, v)]
  | (k', vs) :: rest =>
    if k' = k then (k, v) :: rest else (k', vs) :: dictSet rest k v

/-- The key=value pieces of urlencode(d, doseq=True), one per value. -/
def encPairs (d : List (Chars × List Chars)) : List Chars :=
  d.flatMap (fun kv => kv.2.map (fun v => kv.1 ++ '=' :: v))

/-- Join pieces with ampersands. -/
def joinAmp : List Chars → Chars
  | [] => []
  | [p] => p
  | p :: ps => p ++ '&' :: joinAmp ps

/-- Model of urllib.parse.urlencode(d, doseq=True) without
percent-encoding. -/
def urlencode (d : List (Chars × List Chars)) : Chars := joinAmp (encPairs d)

/-- The (key, value) pairs a dict flattens back to, in dict order. -/
def flatPairs (d : List (Chars × List Chars)) : List (Chars × Chars) :=
  d.flatMap (fun kv => kv.2.map (fun v => (kv.1, v)))

/-- A key maps to a value inside a grouped query dict. -/
def dictHas (d : List (Chars × List Chars)) (k v : Chars) : Prop :=
  ∃ vs, (k, vs) ∈ d ∧ v ∈ vs

def pagedKey : Chars := ['p', 'a', 'g', 'e', 'd']

/-! ## Woo-style adapter -/
/-- Source _next_page_url: reparse the base URL's query, assign the
paged parameter, re-encode, and unparse. -/
def next_page_url (base : String) (num : Nat) : String :=
  let u := urlparseM base
  let qs := parse_qs u.query.toList
  let qs2 := dictSet qs pagedKey [natChars num]
  urlunparseM ⟨u.scheme, u.host, u.path, String.mk (urlencode qs2), u.fragment⟩

/-- Is a pager label a purely numeric string (Python str.isdigit,
restricted to ASCII digits in this model)? -/
def pyIsDigitStr (s : String) : Bool :=
  !s.toList.isEmpty && s.toList.all Char.isDigit

/-- One parsed product card of the Woo-style catalogue page.  Each field
holds the outcome of the corresponding selector / attribute lookup: a
matched (truthy) element's relevant text or attribute, or none when the
selector found nothing. -/
structure WooCard where
  /-- Trimless text of the first title-selector match. -/
  name_el : Option String
  /-- Text of the price element (span.price). -/
  price_el : Option String
  /-- href of the first anchor with an href attribute. -/
  link_href : Option String
  /-- src of the first image with a src attribute, when that element is
  truthy. -/
  img_src : Option String
  /-- The data-product_cat attribute. -/
  data_cat : Option String
  /-- The class attribute's token list (none when the attribute is
  absent, so that the source's fallback default list applies). -/
  classes : Option (List String)

/-- One parsed catalogue page: its product cards and, when the pager
selector matches, the pager links' texts. -/
structure WooPage where
  cards : List WooCard
  pager : Option (List String)

/-- Source _last_page: the maximum over integer values of purely numeric
pager links, defaulting to 1 with no pager or no numeric link. -/
def last_page (pg : WooPage) : Nat :=
  match pg.pager with
  | none => 1
  | some links =>
    match (links.filter pyIsDigitStr).map (fun t => digitsVal t.toList) with
    | [] => 1
    | n :: ns => ns.foldl Nat.max n

/-! ## Canonical record and the JSON payload model -/
/-- Structured payload values (the result of response.json()). -/
inductive Json where
  | obj (fields : List (String × Json))
  | arr (elems : List Json)
  | str (s : String)
  | num (q : ℚ)
  | bool (b : Bool)
  | null

/-- Python truthiness of a payload value. -/
def pyTruthy : Json → Bool
  | .obj fs => !fs.isEmpty
  | .arr l => !l.isEmpty
  | .str s => s ≠ ""
  | .num q => q ≠ 0
  | .bool b => b
  | .null => false

/-- The canonical record, one per output row, in the source's tuple
order (category, name, price, url, image).  The image slot, filled from
an arbitrary payload value by the Shopify adapter, stays a payload
value; the HTML adapters store strings there. -/
structure Record where
  category : String
  name : String
  price : Option ℚ
  url : String
  image : Json

/-! ## Shopify sitemap/API adapter

The only protected region in the source is the per-handle
requests.get(...).json() call; everything after it runs outside any
try/except, so a payload of an unexpected shape raises out of the
adapter.  Model: per-step results are Except values, where error means
an uncaught Python exception aborting the crawl. -/
/-- dict.get(key, default) — raises (error) on a non-dict payload. -/
def pyGet (j : Json) (k : String) (d : Json) : Except Unit Json :=
  match j with
  | .obj fs => .ok ((List.lookup k fs).getD d)
  | _ => .error ()

/-- dict.get(key, default).strip(): additionally raises when the value
is not a string. -/
def pyGetStrStrip (j : Json) (k : String) (d : Json) : Except Unit String :=
  match pyGet j k d with
  | .error e => .error e
  | .ok (.str s) => .ok (pyStrip s)
  | .ok _ => .error ()

/-- v["price"] for one variant entry: its numeric price.  A Python bool
is numeric (False = 0, True = 1); any other shape, or a missing key,
raises when the source compares or divides it. -/
def variantPrice (v : Json) : Except Unit ℚ :=
  match v with
  | .obj fs =>
    match List.lookup "price" fs with
    | some (.num q) => .ok q
    | some (.bool b) => .ok (if b then 1 else 0)
    | _ => .error ()
  | _ => .error ()

/-- Prices of a list of variant entries, first failure aborting. -/
def variantPricesE : List Json → Except Unit (List ℚ)
  | [] => .ok []
  | v :: vs =>
    match variantPrice v with
    | .error e => .error e
    | .ok q =>
      match variantPricesE vs with
      | .error e => .error e
      | .ok qs => .ok (q :: qs)

/-- Python min over a non-empty list. -/
def minList (q : ℚ) (qs : List ℚ) : ℚ := qs.foldl min q

/-- min(v["price"] for v in variants) / 100 if variants else None:
none for a falsy variants value, the minimum variant price divided by
100 for a non-empty list, an uncaught exception for any other truthy
value. -/
def shopifyPrice (variants : Json) : Except Unit (Option ℚ) :=
  if pyTruthy variants then
    match variants with
    | .arr (v :: vs) =>
      match variantPrice v with
      | .error e => .error e
      | .ok q =>
        match variantPricesE vs with
        | .error e => .error e
        | .ok qs => .ok (some (minList q qs / 100))
    | _ => .error ()
  else .ok none

/-- data.get("images", [""])[0] if data.get("images") else "":
first element of a truthy list, first character of a truthy string,
an uncaught exception for other truthy values, else the empty
string. -/
def shopifyImage (data : Json) : Except Unit Json :=
  match data with
  | .obj fs =>
    let imgs := (List.lookup "images" fs).getD Json.null
    if pyTruthy imgs then
      match imgs with
      | .arr (x :: _) => .ok x
      | .str s =>
        match s.toList with
        | c :: _ => .ok (Json.str (String.mk [c]))
        | [] => .error ()
      | _ => .error ()
    else .ok (Json.str "")
  | _ => .error ()

/-- The per-payload record construction of scrape_shopify (the code
after the protected fetch), in source order: title, type, variants,
price, product URL, image.  Any error is an uncaught exception. -/
def shopifyRow (store_url handle : String) (data : Json) :
    Except Unit Record :=
  match pyGetStrStrip data "title" (Json.str "") with
  | .error e => .error e
  | .ok title =>
    match pyGetStrStrip data "type" (Json.str "Uncategorised") with
    | .error e => .error e
    | .ok category =>
      match pyGet data "variants" (Json.arr []) with
      | .error e => .error e
      | .ok variants =>
        match shopifyPrice variants with
        | .error e => .error e
        | .ok price =>
          match shopifyImage data with
          | .error e => .error e
          | .ok image =>
            .ok ⟨category, title, price,
                 urljoin store_url ("/products/" ++ handle), image⟩

/-- The network/parsing oracle of the Shopify adapter: fetching and
XML-parsing a sitemap yields its loc texts, fetching and JSON-parsing a
product endpoint yields its payload; error is a raised exception
(transport failure, or non-JSON body for the json field). -/
structure ShopifyWorld where
  xml : String → Except Unit (List String)
  json : String → Except Unit Json

/-- The per-handle loop of scrape_shopify: a failing payload fetch is
caught and skips the handle; a malformed fetched payload raises out. -/
def processHandles (w : ShopifyWorld) (store_url : String) :
    List String → Except Unit (List Record)
  | [] => .ok []
  | h :: hs =>
    match w.json (urljoin store_url ("/products/" ++ h ++ ".js")) with
    | .error _ => processHandles w store_url hs
    | .ok data =>
      match shopifyRow store_url h data with
      | .error e => .error e
      | .ok r =>
        match processHandles w store_url hs with
        | .error e => .error e
        | .ok rest => .ok (r :: rest)

/-- The per-sub-sitemap loop of scrape_shopify: fetching a sub-sitemap
is unprotected, so its failure raises out of the adapter. -/
def processSitemaps (w : ShopifyWorld) (store_url : String) :
    List String → Except Unit (List Record)
  | [] => .ok []
  | sm :: sms =>
    match w.xml sm with
    | .error e => .error e
    | .ok locs =>
      match processHandles w store_url (locs.map pathName) with
      | .error e => .error e
      | .ok rs =>
        match processSitemaps w store_url sms with
        | .error e => .error e
        | .ok rest => .ok (rs ++ rest)

/-- Source scrape_shopify: fetch the root sitemap (unprotected), keep
the locs containing the products-sitemap marker, then walk sub-sitemaps
and handles. -/
def scrape_shopify (w : ShopifyWorld) (store_url : String) :
    Except Unit (List Record) :=
  match w.xml (urljoin store_url "/sitemap.xml") with
  | .error e => .error e
  | .ok locs =>
    processSitemaps w store_url
      (locs.filter (fun l =>
        hasSub ['s','i','t','e','m','a','p','_','p','r','o','d','u','c','t','s']
          l.toList))

/-! ## Woo-style per-card extraction and crawl -/
/-- Source category fallback, card.get("data-product_cat", "") or
card.get("class", [" "])[0] with the default [""]: the data attribute
when non-empty, else the empty string when the class attribute is
absent, else its first token; an existing but token-less class
attribute raises IndexError (none), which skips the card. -/
def catOf (card : WooCard) : Option String :=
  let d := card.data_cat.getD ""
  if d ≠ "" then some d
  else
    match card.classes with
    | none => some ""
    | some [] => none
    | some (c :: _) => some c

/-- The per-card body of _parse_cards: cards missing a name, price or
link element are silently skipped; any exception while extracting
(unparseable price text, empty class token list) also skips the card. -/
def wooCardRow (shop_url : String) (card : WooCard) : Option Record :=
  match card.name_el, card.price_el, card.link_href with
  | some nt, some pt, some href =>
    match parse_price pt with
    | none => none
    | some q =>
      match catOf card with
      | none => none
      | some cat =>
        some ⟨cat, pyStrip nt, some q, urljoin shop_url href,
              Json.str (card.img_src.getD "")⟩
  | _, _, _ => none

/-- Records contributed by one later page: a failing fetch/parse is
caught (the page is skipped with a printed diagnostic), a parsed page
contributes its cards. -/
def wooPageRows (world : String → Except Unit WooPage) (shop_url : String)
    (p : Nat) : List Record :=
  match world (next_page_url shop_url p) with
  | .error _ => []
  | .ok pg => pg.cards.filterMap (wooCardRow shop_url)

/-- Total page count of the crawl: the discovered pager maximum, clamped
by max_pages only when that argument is truthy (not None and not 0) —
min(_last_page(first), max_pages) if max_pages else _last_page(first). -/
def wooTotal (first : WooPage) (max_pages : Option Nat) : Nat :=
  match max_pages with
  | some m => if m = 0 then last_page first else min (last_page first) m
  | none => last_page first

/-- Source scrape_woocommerce: the first fetch is unprotected (its
failure raises out of the adapter); pages 2..total are fetched with the
paged parameter set, each inside its own try/except, and their records
are appended in page order. -/
def scrape_woocommerce (world : String → Except Unit WooPage)
    (shop_url : String) (max_pages : Option Nat) :
    Except Unit (List Record) :=
  match world shop_url with
  | .error e => .error e
  | .ok first =>
    .ok (first.cards.filterMap (wooCardRow shop_url)
         ++ ((List.range' 2 (wooTotal first max_pages - 1)).map
              (wooPageRows world shop_url)).flatten)

/-! ## Generic CSS adapter -/
/-- One node matching the caller's product-card selector, with the
outcomes of the sub-selector lookups inside it. -/
structure GenCard where
  /-- Text of the name sub-selector match. -/
  name_el : Option String
  /-- Text of the price sub-selector match. -/
  price_el : Option String
  /-- Text of the category sub-selector match (consulted only when a
  truthy category selector was supplied). -/
  cat_el : Option String
  /-- The image sub-selector match: present when it matched, carrying
  the src attribute when the element has one. -/
  img_el : Option (Option String)
  /-- href of the first anchor with an href attribute inside the card. -/
  link_href : Option String

/-- Truthiness of an optional selector string (None and the empty string
are falsy). -/
def truthySel : Option String → Bool
  | none => false
  | some s => s ≠ ""

/-- cat_el.get_text(strip=True) if cat_el else "Uncategorised", where
cat_el is consulted only under a truthy category selector. -/
def genCat (sel_cat : Option String) (card : GenCard) : String :=
  match (if truthySel sel_cat then card.cat_el else none) with
  | some t => pyStrip t
  | none => "Uncategorised"

/-- img_el["src"] if img_el and img_el.has_attr("src") else "". -/
def genImg (sel_img : Option String) (card : GenCard) : String :=
  match (if truthySel sel_img then card.img_el else none) with
  | some (some s) => s
  | some none => ""
  | none => ""

/-- urljoin(url, link["href"]) if link else url — against the CURRENT
value of the source's url variable. -/
def genUrl (url : String) (card : GenCard) : String :=
  match card.link_href with
  | some href => urljoin url href
  | none => url

/-- The per-card body of scrape_generic's loop.  The url argument is the
CURRENT value of the source's url variable — the page URL at first, but
rebound by each emitted record.  Returns the emitted record together
with the value the url variable holds afterwards; none skips the card
and leaves the variable unchanged (the only exception point, the price
conversion, comes before the rebinding). -/
def genericCardRow (sel_cat sel_img : Option String) (url : String)
    (card : GenCard) : Option (Record × String) :=
  match card.name_el, card.price_el with
  | some nt, some pt =>
    match parse_price pt with
    | none => none
    | some q =>
      some (⟨genCat sel_cat card, pyStrip nt, some q, genUrl url card,
             Json.str (genImg sel_img card)⟩, genUrl url card)
  | _, _ => none

/-- The card loop of scrape_generic, threading the url variable the
source rebinds at every appended record. -/
def genericLoop (sel_cat sel_img : Option String) :
    List GenCard → String → List Record
  | [], _ => []
  | card :: rest, url =>
    match genericCardRow sel_cat sel_img url card with
    | some (r, u') => r :: genericLoop sel_cat sel_img rest u'
    | none => genericLoop sel_cat sel_img rest url

/-- Source scrape_generic: one unprotected fetch (its failure raises out
of the adapter), then the card loop.  The world oracle yields the nodes
matching the caller's product selector on the fetched page; the
remaining selector strings act through the card fields and their
truthiness. -/
def scrape_generic (world : String → Except Unit (List GenCard))
    (url _sel_prod _sel_name _sel_price : String)
    (sel_cat sel_img : Option String) : Except Unit (List Record) :=
  match world url with
  | .error e => .error e
  | .ok cards => .ok (genericLoop sel_cat sel_img cards url)

/-- A Shopify store whose root sitemap lists one products sub-sitemap
with a single handle, and whose product payload is the empty object. -/
def titlelessWorld : ShopifyWorld where
  xml := fun u =>
    if u = "http://s/sitemap.xml" then .ok ["http://s/sitemap_products_1.xml"]
    else if u = "http://s/sitemap_products_1.xml" then
      .ok ["http://s/products/p1"]
    else .error ()
  json := fun u =>
    if u = "http://s/products/p1.js" then .ok (Json.obj []) else .error ()

/-- A Shopify store whose single product payload carries one variant
with a negative price value. -/
def negPriceWorld : ShopifyWorld where
  xml := fun u =>
    if u = "http://s/sitemap.xml" then .ok ["http://s/sitemap_products_1.xml"]
    else if u = "http://s/sitemap_products_1.xml" then
      .ok ["http://s/products/p1"]
    else .error ()
  json := fun u =>
    if u = "http://s/products/p1.js" then
      .ok (Json.obj [("title", Json.str "P"),
                     ("variants", Json.arr [Json.obj [("price", Json.num (-100))]])])
    else .error ()

/-- A Woo-style catalogue page whose single card has no data attribute
and no class attribute. -/
def wooCatWorld : String → Except Unit WooPage := fun u =>
  if u = "http://s/shop" then
    .ok ⟨[⟨some "N", some "10", some "/p", none, none, none⟩], none⟩
  else .error ()

/-- A network where every fetch raises. -/
def wooFailWorld : String → Except Unit WooPage := fun _ => .error ()

/-- A network where every fetch raises, for the generic adapter. -/
def genFailWorld : String → Except Unit (List GenCard) := fun _ => .error ()

/-- A Shopify network where every fetch raises. -/
def shopFailWorld : ShopifyWorld where
  xml := fun _ => .error ()
  json := fun _ => .error ()

/-- A Woo-style catalogue with one good, pagerless first page. -/
def wooOnePage : String → Except Unit WooPage := fun u =>
  if u = "http://s/shop" then .ok ⟨[], none⟩ else .error ()

/-- A three-page Woo-style catalogue whose middle page fails to fetch:
page 1 has one card and a pager up to 3, page 2 raises, page 3 has one
card. -/
def wooThreePages : String → Except Unit WooPage := fun u =>
  if u = "http://s/shop" then
    .ok ⟨[⟨some "A", some "1", some "/a", none, none, some ["card"]⟩],
         some ["1", "2", "3"]⟩
  else if u = next_page_url "http://s/shop" 3 then
    .ok ⟨[⟨some "C", some "3", some "/c", none, none, some ["card"]⟩], none⟩
  else .error ()

/-- A Shopify store with two handles: the first payload has a variant
entry without a price field, the second is well-formed. -/
def varNoPriceWorld : ShopifyWorld where
  xml := fun u =>
    if u = "http://s/sitemap.xml" then .ok ["http://s/sitemap_products_1.xml"]
    else if u = "http://s/sitemap_products_1.xml" then
      .ok ["http://s/products/p1", "http://s/products/p2"]
    else .error ()
  json := fun u =>
    if u = "http://s/products/p1.js" then
      .ok (Json.obj [("title", Json.str "T"), ("variants", Json.arr [Json.obj []])])
    else if u = "http://s/products/p2.js" then
      .ok (Json.obj [("title", Json.str "OK")])
    else .error ()

/-- A generic page whose first card links to an absolute foreign URL and
whose second card contains no anchor at all. -/
def mutUrlWorld : String → Except Unit (List GenCard) := fun u =>
  if u = "http://shop.example/list" then
    .ok [⟨some "A", some "5", none, none, some "http://other.example/a"⟩,
         ⟨some "B", some "7", none, none, none⟩]
  else .error ()

/-- Well-formedness of a grouped query dict: keys carry no ampersand or
equals sign, value lists hold non-empty values without ampersands. -/
def dictOK (d : List (Chars × List Chars)) : Prop :=
  ∀ kv ∈ d, (∀ x ∈ kv.1, x ≠ '&' ∧ x ≠ '=')
    ∧ ∀ v ∈ kv.2, v ≠ [] ∧ ∀ x ∈ v, x ≠ '&'

/-! ## Helper lemmas -/
/-- Inversion for the Woo-style per-card extraction. -/
lemma wooCardRow_some {su : String} {c : WooCard} {r : Record}
    (h : wooCardRow su c = some r) :
    ∃ nt pt href q cat, c.name_el = some nt ∧ c.price_el = some pt
      ∧ c.link_href = some href ∧ parse_price pt = some q ∧ catOf c = some cat
      ∧ r = ⟨cat, pyStrip nt, some q, urljoin su href,
             Json.str (c.img_src.getD "")⟩ := by
  rcases c with ⟨ne, pe, lh, im, dc, cl⟩
  cases ne <;> cases pe <;> cases lh <;> simp only [wooCardRow] at h <;>
    first
    | exact absurd h (by simp)
    | skip
  rename_i nt pt href
  split at h
  · exact absurd h (by simp)
  rename_i q hq
  split at h
  · exact absurd h (by simp)
  rename_i cat hc
  exact ⟨nt, pt, href, q, cat, rfl, rfl, rfl, hq, hc, by simpa using h.symm⟩

/-- Inversion for the generic per-card extraction. -/
lemma genericCardRow_some {sc si : Option String} {u : String} {c : GenCard}
    {p : Record × String} (h : genericCardRow sc si u c = some p) :
    ∃ nt pt q, c.name_el = some nt ∧ c.price_el = some pt
      ∧ parse_price pt = some q
      ∧ p = (⟨genCat sc c, pyStrip nt, some q, genUrl u c,
              Json.str (genImg si c)⟩, genUrl u c) := by
  rcases c with ⟨ne, pe, ce, ie, lh⟩
  cases ne <;> cases pe <;> simp only [genericCardRow] at h <;>
    first
    | exact absurd h (by simp)
    | skip
  rename_i nt pt
  split at h
  · exact absurd h (by simp)
  rename_i q hq
  exact ⟨nt, pt, q, rfl, rfl, hq, by simpa using h.symm⟩

/-- Inversion for the Shopify per-payload record construction. -/
lemma shopifyRow_ok {store h : String} {data : Json} {r : Record}
    (hr : shopifyRow store h data = .ok r) :
    ∃ title cat variants price image,
      pyGetStrStrip data "title" (Json.str "") = .ok title
      ∧ pyGetStrStrip data "type" (Json.str "Uncategorised") = .ok cat
      ∧ pyGet data "variants" (Json.arr []) = .ok variants
      ∧ shopifyPrice variants = .ok price
      ∧ shopifyImage data = .ok image
      ∧ r = ⟨cat, title, price, urljoin store ("/products/" ++ h), image⟩ := by
  unfold shopifyRow at hr
  split at hr
  · exact absurd hr (by simp)
  rename_i title h1
  split at hr
  · exact absurd hr (by simp)
  rename_i cat h2
  split at hr
  · exact absurd hr (by simp)
  rename_i variants h3
  split at hr
  · exact absurd hr (by simp)
  rename_i price h4
  split at hr
  · exact absurd hr (by simp)
  rename_i image h5
  exact ⟨title, cat, variants, price, image, h1, h2, h3, h4, h5,
         by simpa using hr.symm⟩

/-- The float model only produces non-negative rationals. -/
lemma pyFloat?_nonneg {s : String} {q : ℚ} (h : pyFloat? s = some q) :
    0 ≤ q := by
  unfold pyFloat? at h
  split at h
  · split at h
    · split at h
      · exact absurd h (by simp)
      · obtain rfl : (digitsVal _ : ℚ) = q := by simpa using h
        positivity
    · split at h
      · exact absurd h (by simp)
      · obtain rfl :
          (digitsVal _ : ℚ) + (digitsVal _ : ℚ) / (10 : ℚ) ^ List.length _ = q := by
          simpa using h
        positivity
    · exact absurd h (by simp)
  · exact absurd h (by simp)

/-- Price normalization only produces non-negative rationals. -/
lemma parse_price_nonneg {s : String} {q : ℚ} (h : parse_price s = some q) :
    0 ≤ q := by
  unfold parse_price at h
  rcases hr : firstRunAux s.toList with _ | run <;> rw [hr] at h
  · simp at h
  · exact pyFloat?_nonneg h

/-- The seed is below a Nat.max fold. -/
lemma le_foldl_max (ns : List ℕ) (n : ℕ) : n ≤ ns.foldl Nat.max n := by
  induction ns generalizing n with
  | nil => exact le_rfl
  | cons a ns ih => exact le_trans (Nat.le_max_left n a) (ih (Nat.max n a))

/-- Every member is below a Nat.max fold. -/
lemma mem_le_foldl_max {m : ℕ} :
    ∀ (ns : List ℕ) (n : ℕ), m ∈ ns → m ≤ ns.foldl Nat.max n
  | [], _, hm => absurd hm (List.not_mem_nil m)
  | a :: ns, n, hm => by
    rcases List.mem_cons.1 hm with rfl | hm'
    · exact le_trans (Nat.le_max_right n m) (le_foldl_max ns (Nat.max n m))
    · exact mem_le_foldl_max ns (Nat.max n a) hm'

/-- A Nat.max fold is the seed or one of the members. -/
lemma foldl_max_cases (ns : List ℕ) (n : ℕ) :
    ns.foldl Nat.max n = n ∨ ns.foldl Nat.max n ∈ ns := by
  induction ns generalizing n with
  | nil => exact Or.inl rfl
  | cons a ns ih =>
    simp only [List.foldl_cons]
    rcases ih (Nat.max n a) with h | h
    · rcases Nat.le_total n a with hna | han
      · refine Or.inr ?_
        have hm : Nat.max n a = a :=
          le_antisymm (Nat.max_le.2 ⟨hna, le_rfl⟩) (Nat.le_max_right n a)
        rw [h, hm]
        exact List.mem_cons_self a ns
      · refine Or.inl ?_
        have hm : Nat.max n a = n :=
          le_antisymm (Nat.max_le.2 ⟨le_rfl, han⟩) (Nat.le_max_left n a)
        rw [h, hm]
    · exact Or.inr (List.mem_cons_of_mem a h)

/-! ## Claim theorems -/
/-- C7: the pagination discoverer returns the maximum over the integer
values of pager links whose text is purely numeric, ignoring non-numeric
labels; it returns 1 when there is no pager control or no purely numeric
link; in particular labels 1, 2, 3, Next yield 3 and no pager yields
1. -/
theorem last_page_spec :
    (∀ cards : List WooCard, last_page ⟨cards, none⟩ = 1)
    ∧ (∀ (cards : List WooCard) (links : List String),
        links.filter pyIsDigitStr = [] → last_page ⟨cards, some links⟩ = 1)
    ∧ (∀ (cards : List WooCard) (links : List String) (n : ℕ) (ns : List ℕ),
        (links.filter pyIsDigitStr).map (fun t => digitsVal t.toList) = n :: ns →
        last_page ⟨cards, some links⟩ ∈ n :: ns
        ∧ ∀ m ∈ n :: ns, m ≤ last_page ⟨cards, some links⟩)
    ∧ last_page ⟨[], some ["1", "2", "3", "Next"]⟩ = 3
    ∧ last_page ⟨[], none⟩ = 1 := by
  refine ⟨fun cards => rfl, fun cards links h => by simp [last_page, h],
          fun cards links n ns h => ?_, by decide, rfl⟩
  have hl : last_page ⟨cards, some links⟩ = ns.foldl Nat.max n := by
    simp only [last_page]
    rw [h]
  constructor
  · rw [hl]
    rcases foldl_max_cases ns n with hc | hc
    · rw [hc]; exact List.mem_cons_self n ns
    · exact List.mem_cons_of_mem n hc
  · intro m hm
    rw [hl]
    rcases List.mem_cons.1 hm with rfl | hm'
    · exact le_foldl_max ns m
    · exact mem_le_foldl_max ns n hm'

/-- C7 witness: the pagination-discoverer theorem applied to concrete
pager link labels. -/
theorem last_page_spec_witness :
    last_page ⟨[], some ["Next"]⟩ = 1
    ∧ last_page ⟨[], some ["1", "2", "3", "Next"]⟩ ∈ [1, 2, 3]
    ∧ 3 ≤ last_page ⟨[], some ["1", "2", "3", "Next"]⟩ :=
  ⟨last_page_spec.2.1 [] ["Next"] (by decide),
   (last_page_spec.2.2.1 [] ["1", "2", "3", "Next"] 1 [2, 3] (by decide)).1,
   (last_page_spec.2.2.1 [] ["1", "2", "3", "Next"] 1 [2, 3] (by decide)).2 3
     (by decide)⟩

/-- C9: price normalization strips the thousands separators and reads
the first numeric run: the rupee-marked text 1,299.50 parses to the
rational 1299.50, a text with no numeric run parses to nothing, and a
card whose price element carries such unparseable text is skipped by
both the Woo-style and the generic adapters. -/
theorem price_normalization_spec :
    parse_price "₹1,299.50" = some (1299.50 : ℚ)
    ∧ parse_price "Contact us" = none
    ∧ (∀ (su : String) (card : WooCard), card.price_el = some "Contact us" →
        wooCardRow su card = none)
    ∧ (∀ (sc si : Option String) (u : String) (card : GenCard),
        card.price_el = some "Contact us" → genericCardRow sc si u card = none) := by
  have hval : parse_price "₹1,299.50"
      = some ((digitsVal ['1', '2', '9', '9'] : ℚ)
        + (digitsVal ['5', '0'] : ℚ) / (10 : ℚ) ^ (2 : ℕ)) := rfl
  have hnone : parse_price "Contact us" = none := rfl
  refine ⟨?_, hnone, ?_, ?_⟩
  · rw [hval, show digitsVal ['1', '2', '9', '9'] = 1299 from rfl,
        show digitsVal ['5', '0'] = 50 from rfl]
    norm_num
  · intro su card hp
    rcases card with ⟨ne, pe, lh, im, dc, cl⟩
    obtain rfl : pe = some "Contact us" := hp
    cases ne <;> cases lh <;> simp [wooCardRow, hnone]
  · intro sc si u card hp
    rcases card with ⟨ne, pe, ce, ie, lh⟩
    obtain rfl : pe = some "Contact us" := hp
    cases ne <;> simp [genericCardRow, hnone]

/-- C9 witness: the normalization theorem applied to concrete cards
whose price text has no numeric run. -/
theorem price_normalization_spec_witness :
    wooCardRow "http://s/shop"
      ⟨some "N", some "Contact us", some "/p", none, none, none⟩ = none
    ∧ genericCardRow none none "http://s/list"
      ⟨some "N", some "Contact us", none, none, none⟩ = none :=
  ⟨price_normalization_spec.2.2.1 "http://s/shop" _ rfl,
   price_normalization_spec.2.2.2 none none "http://s/list" _ rfl⟩

/-- C10: the Woo-style and generic adapters never emit a record with an
absent price — a card whose price element matched but whose text
yielded no parseable number is skipped entirely — while the Shopify
adapter emits an absent price for a payload whose variants value is the
(defaulted) empty list. -/
theorem absent_price_only_shopify :
    (∀ (su : String) (c : WooCard) (r : Record),
        wooCardRow su c = some r → r.price ≠ none)
    ∧ (∀ (sc si : Option String) (u : String) (c : GenCard) (r : Record)
        (u' : String), genericCardRow sc si u c = some (r, u') → r.price ≠ none)
    ∧ (∀ (su : String) (c : WooCard) (t : String), c.price_el = some t →
        parse_price t = none → wooCardRow su c = none)
    ∧ (∀ (sc si : Option String) (u : String) (c : GenCard) (t : String),
        c.price_el = some t → parse_price t = none →
        genericCardRow sc si u c = none)
    ∧ (∀ (store hdl : String) (data : Json) (r : Record),
        shopifyRow store hdl data = .ok r →
        pyGet data "variants" (Json.arr []) = .ok (Json.arr []) →
        r.price = none) := by
  refine ⟨?_, ?_, ?_, ?_, ?_⟩
  · intro su c r hr
    obtain ⟨nt, pt, href, q, cat, -, -, -, -, -, rfl⟩ := wooCardRow_some hr
    simp
  · intro sc si u c r u' hr
    obtain ⟨nt, pt, q, -, -, -, hp⟩ := genericCardRow_some hr
    obtain rfl : r = ⟨genCat sc c, pyStrip nt, some q, genUrl u c,
        Json.str (genImg si c)⟩ := congrArg Prod.fst hp
    simp
  · intro su c t hp hn
    rcases c with ⟨ne, pe, lh, im, dc, cl⟩
    obtain rfl : pe = some t := hp
    cases ne <;> cases lh <;> simp [wooCardRow, hn]
  · intro sc si u c t hp hn
    rcases c with ⟨ne, pe, ce, ie, lh⟩
    obtain rfl : pe = some t := hp
    cases ne <;> simp [genericCardRow, hn]
  · intro store hdl data r hr hv
    obtain ⟨title, cat, variants, price, image, -, -, h3, h4, -, rfl⟩ :=
      shopifyRow_ok hr
    obtain rfl : variants = Json.arr [] := by
      have := h3.symm.trans hv
      simpa using this
    have : shopifyPrice (Json.arr []) = .ok none := rfl
    have hp : price = none := by
      have := h4.symm.trans this
      simpa using this
    simpa using hp

/-- C10 witness: the theorem applied to concrete cards and a concrete
payload without variants. -/
theorem absent_price_only_shopify_witness :
    (⟨"card", "N", some ((10 : ℕ) : ℚ), "http://s/p", Json.str ""⟩
        : Record).price ≠ none
    ∧ (⟨"Uncategorised", "A", some ((5 : ℕ) : ℚ), "http://s/x", Json.str ""⟩
        : Record).price ≠ none
    ∧ wooCardRow "http://s/shop"
        ⟨some "N", some "Contact us", some "/p", none, none, none⟩ = none
    ∧ genericCardRow none none "http://s/list"
        ⟨some "N", some "Contact us", none, none, none⟩ = none
    ∧ (⟨"Uncategorised", "", none, "http://s/products/p1", Json.str ""⟩
        : Record).price = none :=
  ⟨absent_price_only_shopify.1 "http://s/shop"
      ⟨some "N", some "10", some "/p", none, none, some ["card"]⟩ _ rfl,
   absent_price_only_shopify.2.1 none none "http://s/list"
      ⟨some "A", some "5", none, none, some "/x"⟩ _ "http://s/x" rfl,
   absent_price_only_shopify.2.2.1 "http://s/shop" _ "Contact us" rfl rfl,
   absent_price_only_shopify.2.2.2.1 none none "http://s/list" _
      "Contact us" rfl rfl,
   absent_price_only_shopify.2.2.2.2 "http://s" "p1" (Json.obj []) _ rfl rfl⟩

/-- C1 counterexample: the Shopify adapter, fed a payload with no title
field, emits a record whose name is the empty string — the record is
not discarded. -/
theorem shopify_empty_title_emitted :
    scrape_shopify titlelessWorld "http://s"
      = .ok [⟨"Uncategorised", "", none, "http://s/products/p1", Json.str ""⟩]
    ∧ (⟨"Uncategorised", "", none, "http://s/products/p1", Json.str ""⟩
        : Record).name = "" :=
  ⟨rfl, rfl⟩

/-- C1 amended: every emitted record's name is the trimmed text of the
card's required name element (Woo-style and generic; a card with no name
element is skipped) or the payload's title defaulting to the empty
string (Shopify) — and that trimmed text may be empty, so records with
empty names are emitted, never filtered. -/
theorem emitted_name_is_trimmed_source_text :
    (∀ (su : String) (c : WooCard), c.name_el = none → wooCardRow su c = none)
    ∧ (∀ (su : String) (c : WooCard) (r : Record), wooCardRow su c = some r →
        ∃ t, c.name_el = some t ∧ r.name = pyStrip t)
    ∧ (∀ (sc si : Option String) (u : String) (c : GenCard),
        c.name_el = none → genericCardRow sc si u c = none)
    ∧ (∀ (sc si : Option String) (u : String) (c : GenCard)
        (p : Record × String), genericCardRow sc si u c = some p →
        ∃ t, c.name_el = some t ∧ p.1.name = pyStrip t)
    ∧ (∀ (store hdl : String) (data : Json) (r : Record),
        shopifyRow store hdl data = .ok r →
        pyGetStrStrip data "title" (Json.str "") = .ok r.name) := by
  refine ⟨?_, ?_, ?_, ?_, ?_⟩
  · intro su c hn
    rcases c with ⟨ne, pe, lh, im, dc, cl⟩
    obtain rfl : ne = none := hn
    cases pe <;> cases lh <;> rfl
  · intro su c r hr
    obtain ⟨nt, pt, href, q, cat, hne, -, -, -, -, rfl⟩ := wooCardRow_some hr
    exact ⟨nt, hne, rfl⟩
  · intro sc si u c hn
    rcases c with ⟨ne, pe, ce, ie, lh⟩
    obtain rfl : ne = none := hn
    cases pe <;> rfl
  · intro sc si u c p hp
    obtain ⟨nt, pt, q, hne, -, -, rfl⟩ := genericCardRow_some hp
    exact ⟨nt, hne, rfl⟩
  · intro store hdl data r hr
    obtain ⟨title, cat, variants, price, image, h1, -, -, -, -, rfl⟩ :=
      shopifyRow_ok hr
    exact h1

/-- C1 amended witness: the amended theorem applied to concrete cards
and a concrete titleless payload. -/
theorem emitted_name_witness :
    wooCardRow "http://s" ⟨none, some "10", some "/p", none, none, none⟩ = none
    ∧ genericCardRow none none "http://s" ⟨none, some "10", none, none, none⟩
        = none
    ∧ (⟨"card", "N", some ((10 : ℕ) : ℚ), "http://s/p", Json.str ""⟩
        : Record).name = pyStrip " N "
    ∧ pyGetStrStrip (Json.obj []) "title" (Json.str "")
        = .ok (⟨"Uncategorised", "", none, "http://s/products/p1",
               Json.str ""⟩ : Record).name := by
  refine ⟨emitted_name_is_trimmed_source_text.1 "http://s" _ rfl,
          emitted_name_is_trimmed_source_text.2.2.1 none none "http://s" _ rfl,
          ?_, ?_⟩
  · obtain ⟨t, ht, hn⟩ := emitted_name_is_trimmed_source_text.2.1 "http://s"
      ⟨some " N ", some "10", some "/p", none, none, some ["card"]⟩
      ⟨"card", "N", some ((10 : ℕ) : ℚ), "http://s/p", Json.str ""⟩ rfl
    obtain rfl : " N " = t := Option.some.inj ht
    exact hn
  · exact emitted_name_is_trimmed_source_text.2.2.2.2 "http://s" "p1"
      (Json.obj []) _ rfl

/-- Every extracted variant price comes from some variant entry. -/
lemma variantPricesE_mem :
    ∀ {vs : List Json} {qs : List ℚ}, variantPricesE vs = .ok qs →
      ∀ x ∈ qs, ∃ v ∈ vs, variantPrice v = .ok x := by
  intro vs
  induction vs with
  | nil =>
    intro qs h x hx
    obtain rfl : ([] : List ℚ) = qs := by simpa [variantPricesE] using h
    cases hx
  | cons v vs ih =>
    intro qs h x hx
    unfold variantPricesE at h
    split at h
    · exact absurd h (by simp)
    rename_i q hq
    split at h
    · exact absurd h (by simp)
    rename_i qs' hqs'
    obtain rfl : q :: qs' = qs := by simpa using h
    rcases List.mem_cons.1 hx with rfl | hx'
    · exact ⟨v, List.mem_cons_self v vs, hq⟩
    · obtain ⟨v', hv', hvx⟩ := ih hqs' x hx'
      exact ⟨v', List.mem_cons_of_mem v hv', hvx⟩

/-- A fold of min over non-negative rationals is non-negative. -/
lemma minList_nonneg {q0 : ℚ} {qs : List ℚ} (h0 : 0 ≤ q0)
    (hqs : ∀ x ∈ qs, 0 ≤ x) : 0 ≤ minList q0 qs := by
  unfold minList
  induction qs generalizing q0 with
  | nil => exact h0
  | cons a qs ih =>
    simp only [List.foldl_cons]
    exact ih (le_min h0 (hqs a (List.mem_cons_self a qs)))
      (fun x hx => hqs x (List.mem_cons_of_mem a hx))

/-- C5 counterexample: the Shopify adapter, fed a variant price of
-100 minor units, emits a record whose price is the negative rational
-100 / 100. -/
theorem shopify_negative_price_emitted :
    scrape_shopify negPriceWorld "http://s"
      = .ok [⟨"Uncategorised", "P", some ((-100 : ℚ) / 100),
             "http://s/products/p1", Json.str ""⟩]
    ∧ ((-100 : ℚ) / 100) < 0 :=
  ⟨rfl, by norm_num⟩

/-- C5 amended: records emitted by the Woo-style and generic adapters
always carry a present, non-negative price; a Shopify record's price is
non-negative provided every variant price in its payload is
non-negative — an arbitrary (negative) variant price value is passed
through as minimum / 100. -/
theorem emitted_price_nonnegativity :
    (∀ (su : String) (c : WooCard) (r : Record), wooCardRow su c = some r →
        ∃ q, r.price = some q ∧ 0 ≤ q)
    ∧ (∀ (sc si : Option String) (u : String) (c : GenCard)
        (p : Record × String), genericCardRow sc si u c = some p →
        ∃ q, p.1.price = some q ∧ 0 ≤ q)
    ∧ (∀ (variants : Json) (q : ℚ), shopifyPrice variants = .ok (some q) →
        (∀ l, variants = Json.arr l →
          ∀ v ∈ l, ∀ pv, variantPrice v = .ok pv → 0 ≤ pv) →
        0 ≤ q) := by
  refine ⟨?_, ?_, ?_⟩
  · intro su c r hr
    obtain ⟨nt, pt, href, q, cat, -, -, -, hq, -, rfl⟩ := wooCardRow_some hr
    exact ⟨q, rfl, parse_price_nonneg hq⟩
  · intro sc si u c p hp
    obtain ⟨nt, pt, q, -, -, hq, rfl⟩ := genericCardRow_some hp
    exact ⟨q, rfl, parse_price_nonneg hq⟩
  · intro variants q h hpos
    unfold shopifyPrice at h
    split at h
    · split at h <;> try exact absurd h (by simp)
      rename_i v vs htru
      split at h
      · exact absurd h (by simp)
      rename_i q0 hq0
      split at h
      · exact absurd h (by simp)
      rename_i qs hqs
      obtain rfl : minList q0 qs / 100 = q := by simpa using h
      have h0 : 0 ≤ q0 :=
        hpos (v :: vs) rfl v (List.mem_cons_self v vs) q0 hq0
      have hqs' : ∀ x ∈ qs, 0 ≤ x := by
        intro x hx
        obtain ⟨v', hv', hvx⟩ := variantPricesE_mem hqs x hx
        exact hpos (v :: vs) rfl v' (List.mem_cons_of_mem v hv') x hvx
      exact div_nonneg (minList_nonneg h0 hqs') (by norm_num)
    · exact absurd h (by simp)

/-- C5 amended witness: the amended theorem applied to a concrete card,
a concrete generic card and a concrete all-non-negative variant
list. -/
theorem emitted_price_nonnegativity_witness :
    (0 : ℚ) ≤ ((10 : ℕ) : ℚ)
    ∧ (0 : ℚ) ≤ ((5 : ℕ) : ℚ)
    ∧ (0 : ℚ) ≤ (250 : ℚ) / 100 := by
  refine ⟨?_, ?_, ?_⟩
  · obtain ⟨q, hq, h0⟩ := emitted_price_nonnegativity.1 "http://s"
      ⟨some "N", some "10", some "/p", none, none, some ["card"]⟩
      ⟨"card", "N", some ((10 : ℕ) : ℚ), "http://s/p", Json.str ""⟩ rfl
    obtain rfl : ((10 : ℕ) : ℚ) = q := Option.some.inj hq
    exact h0
  · obtain ⟨q, hq, h0⟩ := emitted_price_nonnegativity.2.1 none none
      "http://s" ⟨some "A", some "5", none, none, some "/x"⟩
      (⟨"Uncategorised", "A", some ((5 : ℕ) : ℚ), "http://s/x", Json.str ""⟩,
       "http://s/x") rfl
    obtain rfl : ((5 : ℕ) : ℚ) = q := Option.some.inj hq
    exact h0
  · refine emitted_price_nonnegativity.2.2
      (Json.arr [Json.obj [("price", Json.num 250)]]) ((250 : ℚ) / 100) rfl ?_
    intro l hl v hv pv hpv
    obtain rfl : [Json.obj [("price", Json.num 250)]] = l := by
      injection hl
    obtain rfl : v = Json.obj [("price", Json.num 250)] := by simpa using hv
    have hv250 : variantPrice (Json.obj [("price", Json.num 250)])
        = .ok (250 : ℚ) := rfl
    rw [hv250] at hpv
    obtain rfl : (250 : ℚ) = pv := Except.ok.inj hpv
    norm_num

/-- C6 counterexample: the Woo-style adapter, given a card with no
category data attribute and no class attribute, emits a record whose
category is the empty string — not the Uncategorised sentinel. -/
theorem woo_empty_category_emitted :
    scrape_woocommerce wooCatWorld "http://s/shop" none
      = .ok [⟨"", "N", some ((10 : ℕ) : ℚ), "http://s/p", Json.str ""⟩]
    ∧ ("" : String) ≠ "Uncategorised" :=
  ⟨rfl, by decide⟩

/-- C6 amended: when no category information is found, the Shopify
adapter (missing type field) and the generic adapter (falsy or
non-matching category selector) emit the Uncategorised sentinel, but the
Woo-style adapter (falsy data attribute, absent class attribute) emits
the empty string. -/
theorem category_default_behaviour :
    (∀ (su : String) (c : WooCard) (r : Record),
        (c.data_cat = none ∨ c.data_cat = some "") → c.classes = none →
        wooCardRow su c = some r → r.category = "")
    ∧ (∀ (store hdl : String) (fs : List (String × Json)) (r : Record),
        List.lookup "type" fs = none →
        shopifyRow store hdl (Json.obj fs) = .ok r →
        r.category = "Uncategorised")
    ∧ (∀ (sc si : Option String) (u : String) (c : GenCard)
        (p : Record × String), (truthySel sc = false ∨ c.cat_el = none) →
        genericCardRow sc si u c = some p →
        p.1.category = "Uncategorised") := by
  refine ⟨?_, ?_, ?_⟩
  · intro su c r hdc hcl hr
    rcases c with ⟨ne, pe, lh, im, dc, cl⟩
    obtain rfl : cl = none := hcl
    obtain ⟨nt, pt, href, q, cat, -, -, -, -, hc, rfl⟩ := wooCardRow_some hr
    show cat = ""
    rcases hdc with rfl | rfl
    · have h0 : catOf ⟨ne, pe, lh, im, none, none⟩ = some "" := rfl
      exact (Option.some.inj (h0.symm.trans hc)).symm
    · have h0 : catOf ⟨ne, pe, lh, im, some "", none⟩ = some "" := rfl
      exact (Option.some.inj (h0.symm.trans hc)).symm
  · intro store hdl fs r hlk hr
    obtain ⟨title, cat, variants, price, image, -, h2, -, -, -, rfl⟩ :=
      shopifyRow_ok hr
    have h0 : pyGetStrStrip (Json.obj fs) "type" (Json.str "Uncategorised")
        = .ok (pyStrip "Uncategorised") := by
      simp [pyGetStrStrip, pyGet, hlk]
    obtain rfl : pyStrip "Uncategorised" = cat :=
      Except.ok.inj (h0.symm.trans h2)
    rfl
  · intro sc si u c p hsel hp
    obtain ⟨nt, pt, q, -, -, -, rfl⟩ := genericCardRow_some hp
    show genCat sc c = "Uncategorised"
    unfold genCat
    rcases hsel with hts | hce
    · rw [hts]; rfl
    · cases hts : truthySel sc <;> simp [hce]

/-- C6 amended witness: the amended theorem applied to concrete cards
and a concrete payload with no type field. -/
theorem category_default_behaviour_witness :
    (⟨"", "N", some ((10 : ℕ) : ℚ), "http://s/p", Json.str ""⟩
        : Record).category = ""
    ∧ (⟨"Uncategorised", "", none, "http://s/products/p1", Json.str ""⟩
        : Record).category = "Uncategorised"
    ∧ (⟨"Uncategorised", "A", some ((5 : ℕ) : ℚ), "http://s/x", Json.str ""⟩
        : Record).category = "Uncategorised" :=
  ⟨category_default_behaviour.1 "http://s"
      ⟨some "N", some "10", some "/p", none, none, none⟩ _ (Or.inl rfl) rfl rfl,
   category_default_behaviour.2.1 "http://s" "p1" [] _ rfl rfl,
   category_default_behaviour.2.2 none none "http://s"
      ⟨some "A", some "5", none, none, some "/x"⟩ _ (Or.inl rfl) rfl⟩

/-- C2 counterexample: a transport failure on the very first page of a
Woo-style crawl aborts the whole crawl (the fetch is outside any
try/except), instead of skipping just that page. -/
theorem woo_first_page_failure_aborts :
    scrape_woocommerce wooFailWorld "http://s/shop" none = .error () :=
  rfl

/-- C2 amended: a raised transport failure on a Woo-style page 2..total
only skips that page — the page contributes no records, and the crawl
returns page 1's records followed by every other page's own records in
page order — and likewise a failing Shopify per-product payload fetch
only skips its handle; a crawl whose first Woo-style fetch succeeds
always returns a result; but a raised transport failure on the
Woo-style first page, the Shopify root sitemap, a product sub-sitemap,
or the generic adapter's single page fetch aborts the crawl. -/
theorem transport_failure_granularity :
    (∀ (world : String → Except Unit WooPage) (url : String) (p : ℕ),
        world (next_page_url url p) = .error () →
        wooPageRows world url p = [])
    ∧ (∀ (world : String → Except Unit WooPage) (url : String)
        (mp : Option ℕ) (first : WooPage) (p : ℕ), world url = .ok first →
        world (next_page_url url p) = .error () →
        scrape_woocommerce world url mp
          = .ok (first.cards.filterMap (wooCardRow url)
              ++ ((List.range' 2 (wooTotal first mp - 1)).map
                   (fun q => if q = p then [] else wooPageRows world url q)).flatten))
    ∧ (∀ (world : String → Except Unit WooPage) (url : String)
        (mp : Option ℕ) (first : WooPage), world url = .ok first →
        ∃ L, scrape_woocommerce world url mp = .ok L)
    ∧ (∀ (world : String → Except Unit WooPage) (url : String)
        (mp : Option ℕ), world url = .error () →
        scrape_woocommerce world url mp = .error ())
    ∧ (∀ (w : ShopifyWorld) (store : String),
        w.xml (urljoin store "/sitemap.xml") = .error () →
        scrape_shopify w store = .error ())
    ∧ (∀ (w : ShopifyWorld) (store sm : String) (sms : List String),
        w.xml sm = .error () →
        processSitemaps w store (sm :: sms) = .error ())
    ∧ (∀ (w : ShopifyWorld) (store hdl : String) (hs : List String),
        w.json (urljoin store ("/products/" ++ hdl ++ ".js")) = .error () →
        processHandles w store (hdl :: hs) = processHandles w store hs)
    ∧ (∀ (world : String → Except Unit (List GenCard))
        (url sp sn spr : String) (sc si : Option String),
        world url = .error () →
        scrape_generic world url sp sn spr sc si = .error ()) := by
  refine ⟨?_, ?_, ?_, ?_, ?_, ?_, ?_, ?_⟩
  · intro world url p h
    unfold wooPageRows
    rw [h]
  · intro world url mp first p h1 hp
    have hmap : (List.range' 2 (wooTotal first mp - 1)).map
        (wooPageRows world url)
        = (List.range' 2 (wooTotal first mp - 1)).map
            (fun q => if q = p then [] else wooPageRows world url q) := by
      apply List.map_congr_left
      intro q hq
      by_cases hqp : q = p
      · subst hqp
        rw [if_pos rfl]
        unfold wooPageRows
        rw [hp]
      · rw [if_neg hqp]
    unfold scrape_woocommerce
    rw [h1]
    dsimp only
    rw [hmap]
  · intro world url mp first h
    unfold scrape_woocommerce
    rw [h]
    exact ⟨_, rfl⟩
  · intro world url mp h
    unfold scrape_woocommerce
    rw [h]
  · intro w store h
    unfold scrape_shopify
    rw [h]
  · intro w store sm sms h
    unfold processSitemaps
    rw [h]
  · intro w store hdl hs h
    conv_lhs => rw [processHandles]
    rw [h]
  · intro world url sp sn spr sc si h
    unfold scrape_generic
    rw [h]

/-- C2 amended witness: the granularity theorem applied to concrete
worlds — in particular a three-page catalogue whose middle page fails to
fetch still yields the records of pages 1 and 3, in page order, with
page 2 contributing nothing. -/
theorem transport_failure_granularity_witness :
    wooPageRows wooThreePages "http://s/shop" 2 = []
    ∧ scrape_woocommerce wooThreePages "http://s/shop" none
        = .ok [⟨"card", "A", some ((1 : ℕ) : ℚ), "http://s/a", Json.str ""⟩,
               ⟨"card", "C", some ((3 : ℕ) : ℚ), "http://s/c", Json.str ""⟩]
    ∧ (scrape_woocommerce wooOnePage "http://s/shop" none).isOk = true
    ∧ scrape_woocommerce wooFailWorld "http://s/shop" (some 3) = .error ()
    ∧ scrape_shopify shopFailWorld "http://s" = .error ()
    ∧ processSitemaps shopFailWorld "http://s" ["http://s/sm.xml"] = .error ()
    ∧ processHandles shopFailWorld "http://s" ["p1"]
        = processHandles shopFailWorld "http://s" []
    ∧ scrape_generic genFailWorld "http://s/list" "li" ".t" ".p" none none
        = .error () := by
  refine ⟨?_, ?_, ?_, ?_, ?_, ?_, ?_, ?_⟩
  · exact transport_failure_granularity.1 wooThreePages "http://s/shop" 2 rfl
  · exact transport_failure_granularity.2.1 wooThreePages "http://s/shop"
      none ⟨[⟨some "A", some "1", some "/a", none, none, some ["card"]⟩],
            some ["1", "2", "3"]⟩ 2 rfl rfl
  · obtain ⟨L, hL⟩ := transport_failure_granularity.2.2.1 wooOnePage
      "http://s/shop" none ⟨[], none⟩ rfl
    rw [hL]
    rfl
  · exact transport_failure_granularity.2.2.2.1 wooFailWorld "http://s/shop"
      (some 3) rfl
  · exact transport_failure_granularity.2.2.2.2.1 shopFailWorld "http://s" rfl
  · exact transport_failure_granularity.2.2.2.2.2.1 shopFailWorld "http://s"
      "http://s/sm.xml" [] rfl
  · exact transport_failure_granularity.2.2.2.2.2.2.1 shopFailWorld "http://s"
      "p1" [] rfl
  · exact transport_failure_granularity.2.2.2.2.2.2.2 genFailWorld
      "http://s/list" "li" ".t" ".p" none none rfl

/-- C3 counterexample: a fetched payload whose variant entry has no
price field raises out of the adapter and aborts the whole crawl — the
remaining well-formed handle, which alone would have produced a record,
contributes nothing and is not reached. -/
theorem shopify_malformed_variant_aborts :
    scrape_shopify varNoPriceWorld "http://s" = .error ()
    ∧ shopifyRow "http://s" "p2" (Json.obj [("title", Json.str "OK")])
        = .ok ⟨"Uncategorised", "OK", none, "http://s/products/p2",
               Json.str ""⟩ :=
  ⟨rfl, rfl⟩

/-- C3 amended: a per-product payload that fails to fetch or to parse as
JSON only skips its handle, and the crawl continues with the remaining
handles; but a payload that fetches and parses as JSON of an unexpected
structured shape raises an uncaught exception that aborts the crawl. -/
theorem shopify_payload_failure_handling :
    (∀ (w : ShopifyWorld) (store hdl : String) (hs : List String),
        w.json (urljoin store ("/products/" ++ hdl ++ ".js")) = .error () →
        processHandles w store (hdl :: hs) = processHandles w store hs)
    ∧ (∀ (w : ShopifyWorld) (store hdl : String) (hs : List String)
        (data : Json),
        w.json (urljoin store ("/products/" ++ hdl ++ ".js")) = .ok data →
        shopifyRow store hdl data = .error () →
        processHandles w store (hdl :: hs) = .error ()) := by
  constructor
  · intro w store hdl hs h
    conv_lhs => rw [processHandles]
    rw [h]
  · intro w store hdl hs data hj hr
    conv_lhs => rw [processHandles]
    rw [hj]
    dsimp only
    rw [hr]

/-- C3 amended witness: the payload-failure theorem applied to concrete
worlds and a concrete malformed payload. -/
theorem shopify_payload_failure_handling_witness :
    processHandles shopFailWorld "http://s" ["p1", "p2"]
      = processHandles shopFailWorld "http://s" ["p2"]
    ∧ processHandles varNoPriceWorld "http://s" ["p1"] = .error () := by
  constructor
  · exact shopify_payload_failure_handling.1 shopFailWorld "http://s"
      "p1" ["p2"] rfl
  · exact shopify_payload_failure_handling.2 varNoPriceWorld "http://s"
      "p1" []
      (Json.obj [("title", Json.str "T"), ("variants", Json.arr [Json.obj []])])
      rfl rfl

/-- C4: the source rebinds its url variable to each emitted record's
resolved link, so a later anchorless card falls back to the PREVIOUS
card's resolved URL instead of the page URL: on this page the second
record's url is the first card's foreign URL, not the fetched page's
URL. -/
theorem generic_url_fallback_bug :
    scrape_generic mutUrlWorld "http://shop.example/list" "li.card" ".t" ".p"
      none none
      = .ok [⟨"Uncategorised", "A", some ((5 : ℕ) : ℚ),
             "http://other.example/a", Json.str ""⟩,
             ⟨"Uncategorised", "B", some ((7 : ℕ) : ℚ),
             "http://other.example/a", Json.str ""⟩]
    ∧ ("http://other.example/a" : String) ≠ "http://shop.example/list" :=
  ⟨rfl, by decide⟩

/-! ## Lemmas on the character-level URL and query-string machinery -/
lemma toList_mk (l : Chars) : (String.mk l).toList = l := rfl

lemma mk_eq_empty {l : Chars} : String.mk l = "" ↔ l = [] := by
  rw [String.ext_iff]

lemma tw_all {p : Char → Bool} {a : Chars} (h : ∀ x ∈ a, p x = true)
    (b : Chars) : (a ++ b).takeWhile p = a ++ b.takeWhile p := by
  induction a with
  | nil => rfl
  | cons x a ih =>
    rw [List.cons_append, List.takeWhile_cons,
        if_pos (h x (List.mem_cons_self x a)),
        ih (fun y hy => h y (List.mem_cons_of_mem x hy))]
    rfl

lemma dw_all {p : Char → Bool} {a : Chars} (h : ∀ x ∈ a, p x = true)
    (b : Chars) : (a ++ b).dropWhile p = b.dropWhile p := by
  induction a with
  | nil => rfl
  | cons x a ih =>
    rw [List.cons_append, List.dropWhile_cons,
        if_pos (h x (List.mem_cons_self x a))]
    exact ih (fun y hy => h y (List.mem_cons_of_mem x hy))

lemma tw_self {p : Char → Bool} {a : Chars} (h : ∀ x ∈ a, p x = true) :
    a.takeWhile p = a := by
  have := tw_all h []
  simpa using this

lemma dw_self {p : Char → Bool} {a : Chars} (h : ∀ x ∈ a, p x = true) :
    a.dropWhile p = [] := by
  have := dw_all h []
  simpa using this

/-- Splitting at a character absent from the list. -/
lemma cutAt_no {c : Char} {l : Chars} (h : ∀ x ∈ l, x ≠ c) :
    cutAt c l = (l, none) := by
  have hp : ∀ x ∈ l, (fun x => decide (x ≠ c)) x = true := by
    intro x hx
    simpa using h x hx
  unfold cutAt
  rw [tw_self hp, dw_self hp]

/-- Splitting at the first occurrence of a character. -/
lemma cutAt_app {c : Char} {a : Chars} (h : ∀ x ∈ a, x ≠ c) (b : Chars) :
    cutAt c (a ++ c :: b) = (a, some b) := by
  have hp : ∀ x ∈ a, (fun x => decide (x ≠ c)) x = true := by
    intro x hx
    simpa using h x hx
  unfold cutAt
  rw [tw_all hp, dw_all hp, List.takeWhile_cons, List.dropWhile_cons]
  simp

/-- Members of the part before the cut. -/
lemma mem_cutAt_fst {c : Char} {l : Chars} {x : Char}
    (hx : x ∈ (cutAt c l).1) : x ∈ l ∧ x ≠ c := by
  have h1 : x ∈ l := (List.takeWhile_sublist _).subset hx
  have h2 := List.mem_takeWhile_imp hx
  simp only [decide_eq_true_eq] at h2
  exact ⟨h1, h2⟩

/-- Members of the part after the cut. -/
lemma mem_cutAt_snd {c : Char} {l t : Chars} (h : (cutAt c l).2 = some t) :
    ∀ x ∈ t, x ∈ l := by
  intro x hx
  unfold cutAt at h
  rcases hd : l.dropWhile (fun x => decide (x ≠ c)) with _ | ⟨c', t'⟩
    <;> rw [hd] at h
  · exact absurd h (by simp)
  · have ht : t = t' := by simpa using h.symm
    have hm : x ∈ c' :: t' := List.mem_cons_of_mem c' (ht ▸ hx)
    rw [← hd] at hm
    exact (List.dropWhile_sublist _).subset hm

/-- A split never returns an empty list of pieces. -/
lemma splitOnCh_ne_nil (sep : Char) (l : Chars) : splitOnCh sep l ≠ [] := by
  induction l with
  | nil => simp [splitOnCh]
  | cons c cs ih =>
    unfold splitOnCh
    split
    · simp
    · rcases h : splitOnCh sep cs with _ | ⟨hh, tt⟩
      · simp
      · simp

/-- Splitting a list without the separator. -/
lemma splitOnCh_no {sep : Char} {l : Chars} (h : ∀ x ∈ l, x ≠ sep) :
    splitOnCh sep l = [l] := by
  induction l with
  | nil => rfl
  | cons c cs ih =>
    unfold splitOnCh
    rw [if_neg (by exact_mod_cast h c (List.mem_cons_self c cs))]
    rw [ih (fun y hy => h y (List.mem_cons_of_mem c hy))]

/-- Splitting a list at its first separator. -/
lemma splitOnCh_app {sep : Char} {a : Chars} (h : ∀ x ∈ a, x ≠ sep)
    (b : Chars) : splitOnCh sep (a ++ sep :: b) = a :: splitOnCh sep b := by
  induction a with
  | nil => simp [splitOnCh]
  | cons c a ih =>
    rw [List.cons_append]
    conv_lhs => rw [splitOnCh]
    rw [if_neg (by exact_mod_cast h c (List.mem_cons_self c a))]
    rw [ih (fun y hy => h y (List.mem_cons_of_mem c hy))]

/-- Characters of the pieces of a split come from the input and are
never the separator. -/
lemma mem_splitOnCh {sep : Char} {l : Chars} :
    ∀ {p : Chars}, p ∈ splitOnCh sep l → ∀ {x : Char}, x ∈ p →
      x ∈ l ∧ x ≠ sep := by
  induction l with
  | nil =>
    intro p hp x hx
    obtain rfl : p = [] := by simpa [splitOnCh] using hp
    cases hx
  | cons c cs ih =>
    intro p hp x hx
    unfold splitOnCh at hp
    split at hp
    · rename_i hcsep
      rcases List.mem_cons.1 hp with rfl | hp'
      · cases hx
      · obtain ⟨h1, h2⟩ := ih hp' hx
        exact ⟨List.mem_cons_of_mem c h1, h2⟩
    · rename_i hcsep
      rcases hs : splitOnCh sep cs with _ | ⟨hh, tt⟩
      · exact absurd hs (splitOnCh_ne_nil sep cs)
      · rw [hs] at hp
        rcases List.mem_cons.1 hp with rfl | hp'
        · rcases List.mem_cons.1 hx with rfl | hx'
          · exact ⟨List.mem_cons_self x cs, by simpa using hcsep⟩
          · obtain ⟨h1, h2⟩ := ih (hs ▸ List.mem_cons_self hh tt) hx'
            exact ⟨List.mem_cons_of_mem c h1, h2⟩
        · obtain ⟨h1, h2⟩ := ih (hs ▸ List.mem_cons_of_mem hh hp') hx
          exact ⟨List.mem_cons_of_mem c h1, h2⟩

/-- Joining pieces that contain no ampersand and splitting again
recovers the pieces. -/
lemma splitOnCh_joinAmp :
    ∀ {ps : List Chars}, ps ≠ [] → (∀ p ∈ ps, ∀ x ∈ p, x ≠ '&') →
      splitOnCh '&' (joinAmp ps) = ps := by
  intro ps
  induction ps with
  | nil => intro h; exact absurd rfl h
  | cons p ps ih =>
    intro _ hch
    cases ps with
    | nil =>
      show splitOnCh '&' p = [p]
      exact splitOnCh_no (hch p (List.mem_cons_self p []))
    | cons q rest =>
      show splitOnCh '&' (p ++ '&' :: joinAmp (q :: rest)) = p :: q :: rest
      rw [splitOnCh_app (hch p (List.mem_cons_self p _)) _]
      rw [ih (by simp) (fun r hr x hx => hch r (List.mem_cons_of_mem p hr) x hx)]

/-- Every character of a joined list is an ampersand or comes from some
piece. -/
lemma mem_joinAmp :
    ∀ {ps : List Chars} {x : Char}, x ∈ joinAmp ps →
      x = '&' ∨ ∃ p ∈ ps, x ∈ p := by
  intro ps
  induction ps with
  | nil => intro x hx; cases hx
  | cons p ps ih =>
    intro x hx
    cases ps with
    | nil => exact Or.inr ⟨p, List.mem_cons_self p [], hx⟩
    | cons q rest =>
      rcases List.mem_append.1 hx with h1 | h2
      · exact Or.inr ⟨p, List.mem_cons_self p _, h1⟩
      · rcases List.mem_cons.1 h2 with rfl | h3
        · exact Or.inl rfl
        · rcases ih h3 with h4 | ⟨r, hr, hxr⟩
          · exact Or.inl h4
          · exact Or.inr ⟨r, List.mem_cons_of_mem p hr, hxr⟩

/-- A key=value piece parses back to its pair. -/
lemma qsPair_app {k : Chars} (hk : ∀ x ∈ k, x ≠ '=') {v : Chars}
    (hv : v ≠ []) : qsPair (k ++ '=' :: v) = some (k, v) := by
  unfold qsPair
  rw [cutAt_app hk v]
  simp [hv]

/-- Key and value characters of a parsed pair come from the query
string, keys contain no ampersand or equals sign, values are non-empty
and contain no ampersand. -/
lemma mem_parse_qsl {q : Chars} {kv : Chars × Chars}
    (h : kv ∈ parse_qsl q) :
    (∀ x ∈ kv.1, x ∈ q ∧ x ≠ '&' ∧ x ≠ '=') ∧ kv.2 ≠ []
      ∧ (∀ x ∈ kv.2, x ∈ q ∧ x ≠ '&') := by
  obtain ⟨p, hp, hqs⟩ := List.mem_filterMap.1 h
  unfold qsPair at hqs
  rcases hc : (cutAt '=' p).2 with _ | v
  · rw [show cutAt '=' p = ((cutAt '=' p).1, (cutAt '=' p).2) from rfl, hc]
      at hqs
    exact absurd hqs (by simp)
  · rw [show cutAt '=' p = ((cutAt '=' p).1, (cutAt '=' p).2) from rfl, hc]
      at hqs
    simp only [] at hqs
    split at hqs
    · exact absurd hqs (by simp)
    · rename_i hv
      obtain rfl : ((cutAt '=' p).1, v) = kv := by simpa using hqs
      refine ⟨?_, hv, ?_⟩
      · intro x hx
        obtain ⟨hxp, hxe⟩ := mem_cutAt_fst hx
        obtain ⟨hxq, hxa⟩ := mem_splitOnCh hp hxp
        exact ⟨hxq, hxa, hxe⟩
      · intro x hx
        have hxp : x ∈ p := mem_cutAt_snd hc x hx
        obtain ⟨hxq, hxa⟩ := mem_splitOnCh hp hxp
        exact ⟨hxq, hxa⟩

/-- Encoded pieces of a well-formed dict are non-empty and
ampersand-free. -/
lemma mem_encPairs {d : List (Chars × List Chars)} (hd : dictOK d)
    {p : Chars} (hp : p ∈ encPairs d) :
    p ≠ [] ∧ ∀ x ∈ p, x ≠ '&' := by
  obtain ⟨kv, hkv, hpm⟩ := List.mem_flatMap.1 hp
  obtain ⟨v, hv, rfl⟩ := List.mem_map.1 hpm
  obtain ⟨hk, hvs⟩ := hd kv hkv
  refine ⟨by simp, ?_⟩
  intro x hx
  rcases List.mem_append.1 hx with h1 | h2
  · exact (hk x h1).1
  · rcases List.mem_cons.1 h2 with rfl | h3
    · decide
    · exact (hvs v hv).2 x h3

/-- Parsing a run of key=value pieces sharing one key recovers the
pairs. -/
lemma filterMap_qsPair_map {k : Chars} (hk : ∀ x ∈ k, x ≠ '=') :
    ∀ {vs : List Chars}, (∀ v ∈ vs, v ≠ []) →
      (vs.map (fun v => k ++ '=' :: v)).filterMap qsPair
        = vs.map (fun v => (k, v)) := by
  intro vs
  induction vs with
  | nil => intro _; rfl
  | cons v vs ihv =>
    intro hvs
    rw [List.map_cons, List.map_cons, List.filterMap_cons,
        qsPair_app hk (hvs v (List.mem_cons_self v vs))]
    rw [ihv (fun w hw => hvs w (List.mem_cons_of_mem v hw))]

/-- Parsing the encoded pieces of a well-formed dict recovers its
flattened pairs. -/
lemma filterMap_encPairs :
    ∀ {d : List (Chars × List Chars)}, dictOK d →
      (encPairs d).filterMap qsPair = flatPairs d := by
  intro d
  induction d with
  | nil => intro _; rfl
  | cons kv rest ih =>
    intro hd
    obtain ⟨hk, hvs⟩ := hd kv (List.mem_cons_self kv rest)
    have hrest : dictOK rest := fun e he => hd e (List.mem_cons_of_mem kv he)
    show ((kv.2.map (fun v => kv.1 ++ '=' :: v)) ++ encPairs rest).filterMap
        qsPair = kv.2.map (fun v => (kv.1, v)) ++ flatPairs rest
    rw [List.filterMap_append, ih hrest]
    congr 1
    exact filterMap_qsPair_map (fun x hx => (hk x hx).2)
      (fun v hv => (hvs v hv).1)

/-- Empty encoding means an empty flattening. -/
lemma flatPairs_of_encPairs_nil :
    ∀ {d : List (Chars × List Chars)}, encPairs d = [] → flatPairs d = [] := by
  intro d
  induction d with
  | nil => intro _; rfl
  | cons kv rest ih =>
    intro h
    have h2 : kv.2.map (fun v => kv.1 ++ '=' :: v) = []
        ∧ encPairs rest = [] := by
      have : kv.2.map (fun v => kv.1 ++ '=' :: v) ++ encPairs rest = [] := h
      exact List.append_eq_nil.1 this
    have hv : kv.2 = [] := List.map_eq_nil_iff.1 h2.1
    show kv.2.map (fun v => (kv.1, v)) ++ flatPairs rest = []
    rw [hv, ih h2.2]
    rfl

/-- Round trip: urlencode then parse_qsl recovers the flattened pairs of
a well-formed dict. -/
lemma parse_qsl_urlencode {d : List (Chars × List Chars)} (hd : dictOK d) :
    parse_qsl (urlencode d) = flatPairs d := by
  by_cases he : encPairs d = []
  · rw [flatPairs_of_encPairs_nil he]
    unfold urlencode
    rw [he]
    rfl
  · unfold parse_qsl urlencode
    rw [splitOnCh_joinAmp he (fun p hp => (mem_encPairs hd hp).2)]
    exact filterMap_encPairs hd

/-- The decimal digits of a natural number are digit characters. -/
lemma natCharsAux_digits :
    ∀ (f n : ℕ), ∀ c ∈ natCharsAux f n, c.isDigit = true := by
  intro f
  induction f with
  | zero => intro n c hc; cases hc
  | succ f ih =>
    intro n c hc
    unfold natCharsAux at hc
    split at hc
    · rename_i hlt
      obtain rfl : c = Char.ofNat (48 + n) := by simpa using hc
      interval_cases n <;> decide
    · rcases List.mem_append.1 hc with h1 | h2
      · exact ih _ c h1
      · obtain rfl : c = Char.ofNat (48 + n % 10) := by simpa using h2
        have h10 : n % 10 < 10 := Nat.mod_lt _ (by norm_num)
        set m := n % 10 with hm
        interval_cases m <;> decide

/-- Digit characters are none of the URL metacharacters. -/
lemma digit_notin {c : Char} (h : c.isDigit = true) :
    c ≠ '&' ∧ c ≠ '=' ∧ c ≠ '#' := by
  refine ⟨?_, ?_, ?_⟩ <;> rintro rfl <;> exact absurd h (by decide)

/-- str(num) is never empty. -/
lemma natChars_ne_nil (n : ℕ) : natChars n ≠ [] := by
  unfold natChars natCharsAux
  split <;> simp

/-- A per-value property is preserved when a pair is appended into the
dict. -/
lemma addVal_trace (C : Chars → Chars → Prop) {k v : Chars} (hkv : C k v) :
    ∀ (d : List (Chars × List Chars)), (∀ e ∈ d, ∀ w ∈ e.2, C e.1 w) →
      ∀ e ∈ addVal d k v, ∀ w ∈ e.2, C e.1 w := by
  intro d
  induction d with
  | nil =>
    intro _ e he w hw
    obtain rfl : e = (k, [v]) := by simpa [addVal] using he
    obtain rfl : w = v := by simpa using hw
    exact hkv
  | cons kv' rest ih =>
    rcases kv' with ⟨k', vs⟩
    intro hd e he w hw
    by_cases hk : k' = k
    · rw [show addVal ((k', vs) :: rest) k v = (k', vs ++ [v]) :: rest by
          simp [addVal, hk]] at he
      rcases List.mem_cons.1 he with rfl | he'
      · rcases List.mem_append.1 hw with h1 | h2
        · exact hd (k', vs) (List.mem_cons_self _ _) w h1
        · obtain rfl : w = v := by simpa using h2
          rw [show k' = k from hk]
          exact hkv
      · exact hd e (List.mem_cons_of_mem _ he') w hw
    · rw [show addVal ((k', vs) :: rest) k v = (k', vs) :: addVal rest k v by
          simp [addVal, hk]] at he
      rcases List.mem_cons.1 he with rfl | he'
      · exact hd (k', vs) (List.mem_cons_self _ _) w hw
      · exact ih (fun e' he' => hd e' (List.mem_cons_of_mem _ he')) e he' w hw

/-- A per-value property is preserved by the whole grouping fold. -/
lemma foldl_addVal_trace (C : Chars → Chars → Prop) :
    ∀ (ps : List (Chars × Chars)) (d : List (Chars × List Chars)),
      (∀ e ∈ d, ∀ w ∈ e.2, C e.1 w) → (∀ kv ∈ ps, C kv.1 kv.2) →
      ∀ e ∈ ps.foldl (fun d kv => addVal d kv.1 kv.2) d, ∀ w ∈ e.2, C e.1 w := by
  intro ps
  induction ps with
  | nil => intro d hd _; exact hd
  | cons kv ps ih =>
    intro d hd hps
    exact ih (addVal d kv.1 kv.2)
      (addVal_trace C (hps kv (List.mem_cons_self kv ps)) d hd)
      (fun kv' h => hps kv' (List.mem_cons_of_mem kv h))

/-- Every value stored under a key of the grouped dict was a parsed pair
with that same key. -/
lemma parse_qs_trace {q : Chars} :
    ∀ e ∈ parse_qs q, ∀ w ∈ e.2, (e.1, w) ∈ parse_qsl q :=
  foldl_addVal_trace (fun k w => (k, w) ∈ parse_qsl q) (parse_qsl q) []
    (by simp) (fun kv h => h)

/-- Appending into a dict keeps all value lists non-empty. -/
lemma addVal_vne {k v : Chars} :
    ∀ (d : List (Chars × List Chars)), (∀ e ∈ d, e.2 ≠ []) →
      ∀ e ∈ addVal d k v, e.2 ≠ [] := by
  intro d
  induction d with
  | nil =>
    intro _ e he
    obtain rfl : e = (k, [v]) := by simpa [addVal] using he
    simp
  | cons kv' rest ih =>
    rcases kv' with ⟨k', vs⟩
    intro hd e he
    by_cases hk : k' = k
    · rw [show addVal ((k', vs) :: rest) k v = (k', vs ++ [v]) :: rest by
          simp [addVal, hk]] at he
      rcases List.mem_cons.1 he with rfl | he'
      · simp
      · exact hd e (List.mem_cons_of_mem _ he')
    · rw [show addVal ((k', vs) :: rest) k v = (k', vs) :: addVal rest k v by
          simp [addVal, hk]] at he
      rcases List.mem_cons.1 he with rfl | he'
      · exact hd (k', vs) (List.mem_cons_self _ _)
      · exact ih (fun e' h => hd e' (List.mem_cons_of_mem _ h)) e he'

/-- The grouping fold keeps all value lists non-empty. -/
lemma foldl_addVal_vne :
    ∀ (ps : List (Chars × Chars)) (d : List (Chars × List Chars)),
      (∀ e ∈ d, e.2 ≠ []) →
      ∀ e ∈ ps.foldl (fun d kv => addVal d kv.1 kv.2) d, e.2 ≠ [] := by
  intro ps
  induction ps with
  | nil => intro d hd; exact hd
  | cons kv ps ih =>
    intro d hd
    exact ih (addVal d kv.1 kv.2) (addVal_vne d hd)

/-- parse_qs never stores an empty value list. -/
lemma parse_qs_vne {q : Chars} : ∀ e ∈ parse_qs q, e.2 ≠ [] :=
  foldl_addVal_vne (parse_qsl q) [] (by simp)

/-- parse_qs always yields a well-formed dict. -/
lemma dictOK_parse_qs (q : Chars) : dictOK (parse_qs q) := by
  intro e he
  constructor
  · intro x hx
    obtain ⟨w, hw⟩ := List.exists_mem_of_ne_nil _ (parse_qs_vne e he)
    obtain ⟨hk, -, -⟩ := mem_parse_qsl (parse_qs_trace e he w hw)
    exact ⟨(hk x hx).2.1, (hk x hx).2.2⟩
  · intro v hv
    obtain ⟨-, hne, hval⟩ := mem_parse_qsl (parse_qs_trace e he v hv)
    exact ⟨hne, fun x hx => (hval x hx).2⟩

/-- All key and value characters of the grouped dict come from the query
string. -/
lemma parse_qs_chars {q : Chars} : ∀ e ∈ parse_qs q,
    (∀ x ∈ e.1, x ∈ q) ∧ ∀ v ∈ e.2, ∀ x ∈ v, x ∈ q := by
  intro e he
  constructor
  · intro x hx
    obtain ⟨w, hw⟩ := List.exists_mem_of_ne_nil _ (parse_qs_vne e he)
    obtain ⟨hk, -, -⟩ := mem_parse_qsl (parse_qs_trace e he w hw)
    exact (hk x hx).1
  · intro v hv x hx
    obtain ⟨-, -, hval⟩ := mem_parse_qsl (parse_qs_trace e he v hv)
    exact (hval x hx).1

/-- Entries after a dict assignment are old entries or the new one. -/
lemma mem_dictSet {k : Chars} {vl : List Chars} :
    ∀ {d : List (Chars × List Chars)} {e}, e ∈ dictSet d k vl →
      e ∈ d ∨ e = (k, vl) := by
  intro d
  induction d with
  | nil =>
    intro e he
    exact Or.inr (by simpa [dictSet] using he)
  | cons kv rest ih =>
    rcases kv with ⟨k', vs⟩
    intro e he
    by_cases hk : k' = k
    · rw [show dictSet ((k', vs) :: rest) k vl = (k, vl) :: rest by
          simp [dictSet, hk]] at he
      rcases List.mem_cons.1 he with rfl | he'
      · exact Or.inr rfl
      · exact Or.inl (List.mem_cons_of_mem _ he')
    · rw [show dictSet ((k', vs) :: rest) k vl = (k', vs) :: dictSet rest k vl
          by simp [dictSet, hk]] at he
      rcases List.mem_cons.1 he with rfl | he'
      · exact Or.inl (List.mem_cons_self _ _)
      · rcases ih he' with h1 | h2
        · exact Or.inl (List.mem_cons_of_mem _ h1)
        · exact Or.inr h2

/-- Assignment preserves dict well-formedness when the new entry is
well-formed. -/
lemma dictOK_dictSet {d : List (Chars × List Chars)} (hd : dictOK d)
    {k : Chars} {vl : List Chars} (hk : ∀ x ∈ k, x ≠ '&' ∧ x ≠ '=')
    (hvl : ∀ v ∈ vl, v ≠ [] ∧ ∀ x ∈ v, x ≠ '&') :
    dictOK (dictSet d k vl) := by
  intro e he
  rcases mem_dictSet he with h1 | rfl
  · exact hd e h1
  · exact ⟨hk, hvl⟩

/-- The key just appended is found in the dict. -/
lemma dictHas_addVal_self {k v : Chars} :
    ∀ (d : List (Chars × List Chars)), dictHas (addVal d k v) k v := by
  intro d
  induction d with
  | nil => exact ⟨[v], by simp [addVal], by simp⟩
  | cons kv rest ih =>
    rcases kv with ⟨k', vs⟩
    by_cases hk : k' = k
    · refine ⟨vs ++ [v], ?_, by simp⟩
      rw [show addVal ((k', vs) :: rest) k v = (k', vs ++ [v]) :: rest by
          simp [addVal, hk]]
      rw [show k' = k from hk]
      exact List.mem_cons_self _ _
    · obtain ⟨vs', hm, hv⟩ := ih
      refine ⟨vs', ?_, hv⟩
      rw [show addVal ((k', vs) :: rest) k v = (k', vs) :: addVal rest k v by
          simp [addVal, hk]]
      exact List.mem_cons_of_mem _ hm

/-- Appending any pair preserves existing dict contents. -/
lemma dictHas_addVal_mono {k v k' v' : Chars} :
    ∀ {d : List (Chars × List Chars)}, dictHas d k v →
      dictHas (addVal d k' v') k v := by
  intro d
  induction d with
  | nil =>
    rintro ⟨vs, hm, -⟩
    cases hm
  | cons kv0 rest ih =>
    rcases kv0 with ⟨k0, vs0⟩
    rintro ⟨vs, hm, hv⟩
    by_cases hk0 : k0 = k'
    · rw [show addVal ((k0, vs0) :: rest) k' v' = (k0, vs0 ++ [v']) :: rest by
          simp [addVal, hk0]]
      rcases List.mem_cons.1 hm with heq | hm'
      · have h1 : k = k0 := congrArg Prod.fst heq
        have h2 : vs = vs0 := congrArg Prod.snd heq
        subst h1
        subst h2
        exact ⟨vs ++ [v'], List.mem_cons_self _ _, List.mem_append_left _ hv⟩
      · exact ⟨vs, List.mem_cons_of_mem _ hm', hv⟩
    · rw [show addVal ((k0, vs0) :: rest) k' v'
          = (k0, vs0) :: addVal rest k' v' by simp [addVal, hk0]]
      rcases List.mem_cons.1 hm with heq | hm'
      · exact ⟨vs, heq ▸ List.mem_cons_self _ _, hv⟩
      · obtain ⟨vs', hm'', hv'⟩ := ih ⟨vs, hm', hv⟩
        exact ⟨vs', List.mem_cons_of_mem _ hm'', hv'⟩

/-- The grouping fold preserves existing dict contents. -/
lemma dictHas_foldl_mono {k v : Chars} :
    ∀ (ps : List (Chars × Chars)) (d : List (Chars × List Chars)),
      dictHas d k v →
      dictHas (ps.foldl (fun d kv => addVal d kv.1 kv.2) d) k v := by
  intro ps
  induction ps with
  | nil => intro d h; exact h
  | cons kv ps ih =>
    intro d h
    exact ih (addVal d kv.1 kv.2) (dictHas_addVal_mono h)

/-- Every parsed pair ends up in the grouped dict. -/
lemma pair_dictHas {q : Chars} {k v : Chars} (h : (k, v) ∈ parse_qsl q) :
    dictHas (parse_qs q) k v := by
  have main : ∀ (ps : List (Chars × Chars)) (d : List (Chars × List Chars)),
      (k, v) ∈ ps →
      dictHas (ps.foldl (fun d kv => addVal d kv.1 kv.2) d) k v := by
    intro ps
    induction ps with
    | nil => intro d hm; cases hm
    | cons kv ps ih =>
      intro d hm
      rcases List.mem_cons.1 hm with heq | hm'
      · rw [← heq]
        exact dictHas_foldl_mono ps _ (dictHas_addVal_self d)
      · exact ih _ hm'
  exact main (parse_qsl q) [] h

/-- Assignment under a different key preserves dict contents. -/
lemma dictHas_dictSet_ne {k0 : Chars} {vl : List Chars} {k v : Chars}
    (hne : k ≠ k0) :
    ∀ {d : List (Chars × List Chars)}, dictHas d k v →
      dictHas (dictSet d k0 vl) k v := by
  intro d
  induction d with
  | nil =>
    rintro ⟨vs, hm, -⟩
    cases hm
  | cons kv0 rest ih =>
    rcases kv0 with ⟨k', vs'⟩
    rintro ⟨vs, hm, hv⟩
    by_cases hk' : k' = k0
    · rw [show dictSet ((k', vs') :: rest) k0 vl = (k0, vl) :: rest by
          simp [dictSet, hk']]
      rcases List.mem_cons.1 hm with heq | hm'
      · have hkk : k = k' := congrArg Prod.fst heq
        exact absurd (hkk.trans hk') hne
      · exact ⟨vs, List.mem_cons_of_mem _ hm', hv⟩
    · rw [show dictSet ((k', vs') :: rest) k0 vl
          = (k', vs') :: dictSet rest k0 vl by simp [dictSet, hk']]
      rcases List.mem_cons.1 hm with heq | hm'
      · exact ⟨vs, heq ▸ List.mem_cons_self _ _, hv⟩
      · obtain ⟨vs'', hm'', hv''⟩ := ih ⟨vs, hm', hv⟩
        exact ⟨vs'', List.mem_cons_of_mem _ hm'', hv''⟩

/-- An assignment's own entry is in the dict. -/
lemma dictSet_self :
    ∀ (d : List (Chars × List Chars)) (k : Chars) (vl : List Chars),
      (k, vl) ∈ dictSet d k vl := by
  intro d k vl
  induction d with
  | nil => exact List.mem_cons_self _ _
  | cons kv rest ih =>
    rcases kv with ⟨k', vs⟩
    by_cases hk : k' = k
    · rw [show dictSet ((k', vs) :: rest) k vl = (k, vl) :: rest by
          simp [dictSet, hk]]
      exact List.mem_cons_self _ _
    · rw [show dictSet ((k', vs) :: rest) k vl
          = (k', vs) :: dictSet rest k vl by simp [dictSet, hk]]
      exact List.mem_cons_of_mem _ ih

/-- Dict membership flattens to pair membership. -/
lemma dictHas_flatPairs {d : List (Chars × List Chars)} {k v : Chars}
    (h : dictHas d k v) : (k, v) ∈ flatPairs d := by
  obtain ⟨vs, hm, hv⟩ := h
  exact List.mem_flatMap.2 ⟨(k, vs), hm, List.mem_map.2 ⟨v, hv, rfl⟩⟩

/-- A list starts with itself. -/
lemma hasPre_app : ∀ (p r : Chars), hasPre p (p ++ r) = true := by
  intro p r
  induction p with
  | nil => rfl
  | cons c p ih => simp [hasPre, ih]

/-- An https URL does not match the http prefix. -/
lemma not_http_of_https (r : Chars) : hasPre httpPre (httpsPre ++ r) = false :=
  rfl

lemma drop_httpPre (x : Chars) : (httpPre ++ x).drop 7 = x :=
  List.drop_left httpPre x

lemma drop_httpsPre (x : Chars) : (httpsPre ++ x).drop 8 = x :=
  List.drop_left httpsPre x

/-- Characters of the pre-query part of a parsed URL are neither hash
nor question mark. -/
lemma mem_pre_props {l : Chars} {x : Char}
    (hx : x ∈ (cutAt '?' (cutAt '#' l).1).1) : x ≠ '#' ∧ x ≠ '?' := by
  obtain ⟨hx1, hq⟩ := mem_cutAt_fst hx
  obtain ⟨-, hh⟩ := mem_cutAt_fst hx1
  exact ⟨hh, hq⟩

/-- Characters of the query part of a parsed URL are not hashes. -/
lemma mem_query_props {l : Chars} {x : Char}
    (hx : x ∈ (cutAt '?' (cutAt '#' l).1).2.getD []) : x ≠ '#' := by
  rcases hc : (cutAt '?' (cutAt '#' l).1).2 with _ | t
  · rw [hc] at hx
    cases hx
  · rw [hc] at hx
    have hx1 : x ∈ (cutAt '#' l).1 := mem_cutAt_snd hc x hx
    exact (mem_cutAt_fst hx1).2

/-- Cutting an assembled pre ++ query ++ fragment URL recovers the three
parts. -/
lemma cuts_recover (A q2 frag : Chars)
    (hA : ∀ x ∈ A, x ≠ '#' ∧ x ≠ '?') (hq2 : ∀ x ∈ q2, x ≠ '#') :
    (cutAt '?' (cutAt '#' (A ++ (if q2 = [] then [] else '?' :: q2)
        ++ (if frag = [] then [] else '#' :: frag))).1).1 = A
    ∧ (cutAt '?' (cutAt '#' (A ++ (if q2 = [] then [] else '?' :: q2)
        ++ (if frag = [] then [] else '#' :: frag))).1).2.getD [] = q2
    ∧ (cutAt '#' (A ++ (if q2 = [] then [] else '?' :: q2)
        ++ (if frag = [] then [] else '#' :: frag))).2.getD [] = frag := by
  have hnh : ∀ x ∈ A ++ (if q2 = [] then [] else '?' :: q2), x ≠ '#' := by
    intro x hx
    rcases List.mem_append.1 hx with h1 | h2
    · exact (hA x h1).1
    · split at h2
      · cases h2
      · rcases List.mem_cons.1 h2 with rfl | h3
        · decide
        · exact hq2 x h3
  have hcut1 : cutAt '#' (A ++ (if q2 = [] then [] else '?' :: q2)
      ++ (if frag = [] then [] else '#' :: frag))
      = (A ++ (if q2 = [] then [] else '?' :: q2),
         if frag = [] then none else some frag) := by
    by_cases hf : frag = []
    · rw [if_pos hf, List.append_nil, cutAt_no hnh, if_pos hf]
    · rw [if_neg hf, cutAt_app hnh frag, if_neg hf]
  have hcut2 : cutAt '?' (A ++ (if q2 = [] then [] else '?' :: q2))
      = (A, if q2 = [] then none else some q2) := by
    by_cases hq : q2 = []
    · rw [if_pos hq, List.append_nil, cutAt_no (fun x hx => (hA x hx).2),
         if_pos hq]
    · rw [if_neg hq, cutAt_app (fun x hx => (hA x hx).2) q2, if_neg hq]
  refine ⟨?_, ?_, ?_⟩
  · simp only [hcut1, hcut2]
  · simp only [hcut1, hcut2]
    by_cases hq : q2 = []
    · simp [hq]
    · simp [hq]
  · simp only [hcut1]
    by_cases hf : frag = []
    · simp [hf]
    · simp [hf]

/-- Unparsing with a non-empty scheme assembles the URL from its
parts. -/
lemma unparse_scheme (sch : String) (hsch : ¬sch = "")
    (host path q2 frag : Chars) :
    urlunparseChars ⟨sch, String.mk host, String.mk path, String.mk q2,
        String.mk frag⟩
      = (sch.toList ++ ':' :: '/' :: '/' :: host ++ path)
        ++ (if q2 = [] then [] else '?' :: q2)
        ++ (if frag = [] then [] else '#' :: frag) := by
  unfold urlunparseChars
  dsimp only
  rw [if_neg hsch]
  simp only [toList_mk, mk_eq_empty]

/-- Unparsing without a scheme assembles path, query and fragment. -/
lemma unparse_noscheme (path q2 frag : Chars) :
    urlunparseChars ⟨"", "", String.mk path, String.mk q2, String.mk frag⟩
      = path ++ (if q2 = [] then [] else '?' :: q2)
        ++ (if frag = [] then [] else '#' :: frag) := by
  unfold urlunparseChars
  dsimp only
  rw [if_pos rfl]
  simp only [toList_mk, mk_eq_empty]

/-- Re-parsing an unparsed URL whose scheme, host and path come from a
parse — with any hash-free query and any fragment — recovers exactly
those parts. -/
lemma parsePre_roundtrip (pre q2 frag : Chars)
    (hpre : ∀ x ∈ pre, x ≠ '#' ∧ x ≠ '?') (hq2 : ∀ x ∈ q2, x ≠ '#') :
    urlparseChars (urlunparseChars
        ⟨(parsePre pre [] []).scheme, (parsePre pre [] []).host,
         (parsePre pre [] []).path, String.mk q2, String.mk frag⟩)
      = ⟨(parsePre pre [] []).scheme, (parsePre pre [] []).host,
         (parsePre pre [] []).path, String.mk q2, String.mk frag⟩ := by
  cases hh : hasPre httpPre pre with
  | true =>
    have hps : parsePre pre [] [] = ⟨"http",
        String.mk ((pre.drop 7).takeWhile (fun c => c ≠ '/')),
        String.mk ((pre.drop 7).dropWhile (fun c => c ≠ '/')),
        String.mk [], String.mk []⟩ := by
      unfold parsePre
      rw [if_pos hh]
    rw [hps]
    dsimp only
    rw [unparse_scheme "http" (by decide)]
    have hA : ∀ x ∈ httpPre ++ pre.drop 7, x ≠ '#' ∧ x ≠ '?' := by
      intro x hx
      rcases List.mem_append.1 hx with h1 | h2
      · simp only [httpPre, List.mem_cons, List.not_mem_nil, or_false] at h1
        rcases h1 with rfl | rfl | rfl | rfl | rfl | rfl | rfl <;> decide
      · exact hpre x (List.drop_subset 7 pre h2)
    have hAeq : ("http".toList ++ ':' :: '/' :: '/' ::
        ((pre.drop 7).takeWhile (fun c => c ≠ '/'))
        ++ ((pre.drop 7).dropWhile (fun c => c ≠ '/')) : Chars)
        = httpPre ++ pre.drop 7 := by
      rw [show ("http".toList ++ ':' :: '/' :: '/' ::
          ((pre.drop 7).takeWhile (fun c => c ≠ '/')) : Chars)
          = httpPre ++ (pre.drop 7).takeWhile (fun c => c ≠ '/') from rfl]
      rw [List.append_assoc, List.takeWhile_append_dropWhile]
    rw [hAeq]
    obtain ⟨hc1, hc2, hc3⟩ := cuts_recover (httpPre ++ pre.drop 7) q2 frag hA hq2
    unfold urlparseChars
    rw [hc1, hc2, hc3]
    unfold parsePre
    rw [if_pos (hasPre_app httpPre (pre.drop 7))]
    rw [drop_httpPre]
  | false =>
    cases hh2 : hasPre httpsPre pre with
    | true =>
      have hps : parsePre pre [] [] = ⟨"https",
          String.mk ((pre.drop 8).takeWhile (fun c => c ≠ '/')),
          String.mk ((pre.drop 8).dropWhile (fun c => c ≠ '/')),
          String.mk [], String.mk []⟩ := by
        unfold parsePre
        rw [if_neg (by simp [hh]), if_pos hh2]
      rw [hps]
      dsimp only
      rw [unparse_scheme "https" (by decide)]
      have hA : ∀ x ∈ httpsPre ++ pre.drop 8, x ≠ '#' ∧ x ≠ '?' := by
        intro x hx
        rcases List.mem_append.1 hx with h1 | h2
        · simp only [httpsPre, List.mem_cons, List.not_mem_nil, or_false] at h1
          rcases h1 with rfl | rfl | rfl | rfl | rfl | rfl | rfl | rfl <;> decide
        · exact hpre x (List.drop_subset 8 pre h2)
      have hAeq : ("https".toList ++ ':' :: '/' :: '/' ::
          ((pre.drop 8).takeWhile (fun c => c ≠ '/'))
          ++ ((pre.drop 8).dropWhile (fun c => c ≠ '/')) : Chars)
          = httpsPre ++ pre.drop 8 := by
        rw [show ("https".toList ++ ':' :: '/' :: '/' ::
            ((pre.drop 8).takeWhile (fun c => c ≠ '/')) : Chars)
            = httpsPre ++ (pre.drop 8).takeWhile (fun c => c ≠ '/') from rfl]
        rw [List.append_assoc, List.takeWhile_append_dropWhile]
      rw [hAeq]
      obtain ⟨hc1, hc2, hc3⟩ :=
        cuts_recover (httpsPre ++ pre.drop 8) q2 frag hA hq2
      unfold urlparseChars
      rw [hc1, hc2, hc3]
      unfold parsePre
      rw [if_neg (by simp [not_http_of_https]),
          if_pos (hasPre_app httpsPre (pre.drop 8))]
      rw [drop_httpsPre]
    | false =>
      have hps : parsePre pre [] [] = ⟨"", "", String.mk pre,
          String.mk [], String.mk []⟩ := by
        unfold parsePre
        rw [if_neg (by simp [hh]), if_neg (by simp [hh2])]
      rw [hps]
      dsimp only
      rw [unparse_noscheme pre q2 frag]
      obtain ⟨hc1, hc2, hc3⟩ := cuts_recover pre q2 frag hpre hq2
      unfold urlparseChars
      rw [hc1, hc2, hc3]
      unfold parsePre
      rw [if_neg (by simp [hh]), if_neg (by simp [hh2])]

/-- Scheme, host and path of a parse do not depend on the query and
fragment arguments. -/
lemma parsePre_proj (pre q f : Chars) :
    (parsePre pre q f).scheme = (parsePre pre [] []).scheme
    ∧ (parsePre pre q f).host = (parsePre pre [] []).host
    ∧ (parsePre pre q f).path = (parsePre pre [] []).path := by
  unfold parsePre
  split_ifs <;> exact ⟨rfl, rfl, rfl⟩

/-- Query and fragment of a parse are stored verbatim. -/
lemma parsePre_qf (pre q f : Chars) :
    (parsePre pre q f).query = String.mk q
    ∧ (parsePre pre q f).fragment = String.mk f := by
  unfold parsePre
  split_ifs <;> exact ⟨rfl, rfl⟩

/-- The re-encoded query with the paged parameter set contains no
hash. -/
lemma q2_no_hash {q0 : Chars} (hq0 : ∀ x ∈ q0, x ≠ '#') (num : ℕ) :
    ∀ x ∈ urlencode (dictSet (parse_qs q0) pagedKey [natChars num]),
      x ≠ '#' := by
  intro x hx
  rcases mem_joinAmp hx with rfl | ⟨p, hp, hxp⟩
  · decide
  · obtain ⟨kv, hkv, hpm⟩ := List.mem_flatMap.1 hp
    obtain ⟨v, hv, rfl⟩ := List.mem_map.1 hpm
    rcases mem_dictSet hkv with hold | rfl
    · obtain ⟨hkc, hvc⟩ := parse_qs_chars kv hold
      rcases List.mem_append.1 hxp with h1 | h2
      · exact hq0 x (hkc x h1)
      · rcases List.mem_cons.1 h2 with rfl | h3
        · decide
        · exact hq0 x (hvc v hv x h3)
    · rcases List.mem_append.1 hxp with h1 | h2
      · simp only [pagedKey, List.mem_cons, List.not_mem_nil, or_false] at h1
        rcases h1 with rfl | rfl | rfl | rfl | rfl <;> decide
      · rcases List.mem_cons.1 h2 with rfl | h3
        · decide
        · obtain rfl : v = natChars num := by simpa using hv
          exact (digit_notin (natCharsAux_digits _ _ x h3)).2.2

/-- Core round trip: re-parsing the page URL built from a parsed base
with the re-encoded query recovers the base's scheme, host, path and
fragment together with the new query. -/
lemma next_core (pre q0 f0 : Chars) (num : ℕ)
    (hpre : ∀ x ∈ pre, x ≠ '#' ∧ x ≠ '?') (hq0 : ∀ x ∈ q0, x ≠ '#') :
    urlparseChars (urlunparseChars
      ⟨(parsePre pre q0 f0).scheme, (parsePre pre q0 f0).host,
       (parsePre pre q0 f0).path,
       String.mk (urlencode (dictSet (parse_qs q0) pagedKey [natChars num])),
       (parsePre pre q0 f0).fragment⟩)
    = ⟨(parsePre pre q0 f0).scheme, (parsePre pre q0 f0).host,
       (parsePre pre q0 f0).path,
       String.mk (urlencode (dictSet (parse_qs q0) pagedKey [natChars num])),
       String.mk f0⟩ := by
  obtain ⟨hs, hh, hp⟩ := parsePre_proj pre q0 f0
  obtain ⟨hq, hf⟩ := parsePre_qf pre q0 f0
  rw [hs, hh, hp, hf]
  exact parsePre_roundtrip pre _ f0 hpre (q2_no_hash hq0 num)

/-- C8 amended: _next_page_url keeps the scheme, host, path and
fragment of the base URL unchanged; its resulting query consists of
exactly the base's non-blank-valued parameters, grouped by key in
first-occurrence order, with the paged parameter set (or overwritten in
place) to the page number; every non-blank parameter under a key other
than paged survives with its value, and the paged parameter is
present — parameters with blank values are dropped. -/
theorem next_page_url_preserves_nonblank_params (base : String) (num : ℕ) :
    (urlparseM (next_page_url base num)).scheme = (urlparseM base).scheme
    ∧ (urlparseM (next_page_url base num)).host = (urlparseM base).host
    ∧ (urlparseM (next_page_url base num)).path = (urlparseM base).path
    ∧ (urlparseM (next_page_url base num)).fragment = (urlparseM base).fragment
    ∧ parse_qsl (urlparseM (next_page_url base num)).query.toList
        = flatPairs (dictSet (parse_qs (urlparseM base).query.toList)
            pagedKey [natChars num])
    ∧ (∀ (k v : Chars), (k, v) ∈ parse_qsl (urlparseM base).query.toList →
        k ≠ pagedKey →
        (k, v) ∈ parse_qsl (urlparseM (next_page_url base num)).query.toList)
    ∧ (pagedKey, natChars num)
        ∈ parse_qsl (urlparseM (next_page_url base num)).query.toList := by
  have hmain : urlparseM (next_page_url base num)
      = ⟨(urlparseM base).scheme, (urlparseM base).host, (urlparseM base).path,
         String.mk (urlencode (dictSet (parse_qs (urlparseM base).query.toList)
           pagedKey [natChars num])),
         String.mk ((cutAt '#' base.toList).2.getD [])⟩ := by
    have h1 : urlparseM (next_page_url base num)
        = urlparseChars (urlunparseChars
            ⟨(urlparseM base).scheme, (urlparseM base).host,
             (urlparseM base).path,
             String.mk (urlencode (dictSet
               (parse_qs (urlparseM base).query.toList)
               pagedKey [natChars num])),
             (urlparseM base).fragment⟩) := rfl
    rw [h1]
    have hquery : (urlparseM base).query.toList
        = (cutAt '?' (cutAt '#' base.toList).1).2.getD [] := by
      rw [show (urlparseM base).query
          = String.mk ((cutAt '?' (cutAt '#' base.toList).1).2.getD [])
          from (parsePre_qf _ _ _).1]
      rfl
    rw [hquery]
    exact next_core (cutAt '?' (cutAt '#' base.toList).1).1
      ((cutAt '?' (cutAt '#' base.toList).1).2.getD [])
      ((cutAt '#' base.toList).2.getD []) num
      (fun x hx => mem_pre_props hx) (fun x hx => mem_query_props hx)
  have hfrag : (urlparseM base).fragment
      = String.mk ((cutAt '#' base.toList).2.getD []) :=
    (parsePre_qf (cutAt '?' (cutAt '#' base.toList).1).1
      ((cutAt '?' (cutAt '#' base.toList).1).2.getD [])
      ((cutAt '#' base.toList).2.getD [])).2
  have hOK : dictOK (dictSet (parse_qs (urlparseM base).query.toList)
      pagedKey [natChars num]) := by
    refine dictOK_dictSet (dictOK_parse_qs _) (by decide) ?_
    intro v hv
    obtain rfl : v = natChars num := by simpa using hv
    refine ⟨natChars_ne_nil num, ?_⟩
    intro x hx
    exact (digit_notin (natCharsAux_digits _ _ x hx)).1
  have h5 : parse_qsl (urlparseM (next_page_url base num)).query.toList
      = flatPairs (dictSet (parse_qs (urlparseM base).query.toList)
          pagedKey [natChars num]) := by
    rw [hmain]
    exact parse_qsl_urlencode hOK
  refine ⟨by rw [hmain], by rw [hmain], by rw [hmain],
          by rw [hmain, hfrag], h5, ?_, ?_⟩
  · intro k v hkv hne
    rw [h5]
    exact dictHas_flatPairs (dictHas_dictSet_ne hne (pair_dictHas hkv))
  · rw [h5]
    exact dictHas_flatPairs ⟨[natChars num], dictSet_self _ _ _, by simp⟩

/-- C8 counterexample: a base-URL query parameter with a blank value is
dropped by the next-page URL construction — the character x no longer
occurs anywhere in the result, so the parameter is not preserved. -/
theorem next_page_url_drops_blank_param :
    next_page_url "http://s/shop?x=&y=2" 3 = "http://s/shop?y=2&paged=3"
    ∧ 'x' ∉ ("http://s/shop?y=2&paged=3" : String).toList :=
  ⟨rfl, by decide⟩

/-- C8 amended witness: the preservation theorem applied to a concrete
base URL with two non-blank parameters and a fragment. -/
theorem next_page_url_preserves_witness :
    ((['a'], ['1']) : Chars × Chars)
      ∈ parse_qsl
          (urlparseM (next_page_url "https://h/p?a=1&b=2#top" 7)).query.toList
    ∧ (pagedKey, natChars 7)
      ∈ parse_qsl
          (urlparseM (next_page_url "https://h/p?a=1&b=2#top" 7)).query.toList
    ∧ (urlparseM (next_page_url "https://h/p?a=1&b=2#top" 7)).host
      = (urlparseM "https://h/p?a=1&b=2#top").host :=
  ⟨(next_page_url_preserves_nonblank_params "https://h/p?a=1&b=2#top"
      7).2.2.2.2.2.1 ['a'] ['1'] (by decide) (by decide),
   (next_page_url_preserves_nonblank_params "https://h/p?a=1&b=2#top"
      7).2.2.2.2.2.2,
   (next_page_url_preserves_nonblank_params "https://h/p?a=1&b=2#top" 7).2.1⟩

end ProductLister

